import Mathlib

/-!
# AnalogDelayAudioProcessor

A shallow embedding of `Source/PluginProcessor.cpp` (the host-adaptation layer of the
analog delay plugin) together with the delay engine it drives.

* Sample and parameter values (`float` / `double` in the source) are elements of a linearly
  ordered field `K` with a floor function; every definition is executable at `K = ℚ`.
* The delay engine object `analogDelay` is reached only through four calls.  The processor is
  therefore embedded over an arbitrary engine `DelayEngineOps σ K`; the engine described by the
  specification is given further down as one instance.
* Pointer accesses that the source performs without a check (`getReadPointer (1)`,
  `getRawParameterValue (..)->load()`) are embedded as `Option`: `none` is an access outside
  the object.
-/

namespace AnalogDelay

/-! ## Data model -/

/-- Modelled from the spec: the parameter struct held in the member `params`; its declaration
is in a header that is not part of the sources.  The five fields are the ones the processor
assigns (spec §3, ParameterState). -/
structure AudioDelayParameters (K : Type) where
  leftDelay_mSec : K
  rightDelay_mSec : K
  feedback_Pct : K
  wetLevel_dB : K
  dryLevel_dB : K
deriving DecidableEq

/-- The four calls the processor makes on the member `analogDelay`, over an engine state `σ`.
`processAudioFrame e inputs outputs nIn nOut` receives the `outputs` array as the caller
initialised it and returns the array as the engine left it. -/
structure DelayEngineOps (σ K : Type) where
  reset : σ → K → σ
  createDelayBuffers : σ → K → K → σ
  setParameters : σ → AudioDelayParameters K → σ
  processAudioFrame : σ → K × K → K × K → Nat → Nat → σ × (K × K)

/-- The framework's `NormalisableRange (start, end, interval, skew, symmetricSkew)`. -/
structure NormalisableRange (K : Type) where
  start : K
  stop : K
  interval : K
  skew : K
  symmetricSkew : Bool
deriving DecidableEq

/-- The framework's `AudioParameterFloat (id, name, range, default)`; `value` is the atomic
that `getRawParameterValue` points to, initialised with the default. -/
structure AudioParameterFloat (K : Type) where
  paramID : String
  name : String
  range : NormalisableRange K
  value : K
deriving DecidableEq

/-- The parameter tree: the parameters of the layout it was built from. -/
structure AudioProcessorValueTreeState (K : Type) where
  parameters : List (AudioParameterFloat K)
  listeners : List String

/-- A channel set, as the list of its channel types (`left = 1`, `right = 2`, `centre = 3`). -/
structure AudioChannelSet where
  channels : List Nat
deriving DecidableEq

/-- The main input and output bus of the processor. -/
structure BusesLayout where
  mainInput : AudioChannelSet
  mainOutput : AudioChannelSet
deriving DecidableEq

/-- An audio buffer: `size` samples in each of its channels. -/
structure AudioBuffer (K : Type) where
  size : Nat
  channels : List (List K)
deriving DecidableEq

/-- The state of the processor object. -/
structure AnalogDelayAudioProcessor (σ K : Type) where
  layouts : BusesLayout
  treeState : AudioProcessorValueTreeState K
  params : AudioDelayParameters K
  analogDelay : σ

/-- The preprocessor switches the source is compiled under. -/
structure BuildFlags where
  JucePlugin_IsMidiEffect : Bool
  JucePlugin_IsSynth : Bool

/-! ## Framework operations used by the processor -/

namespace AudioChannelSet

def mono : AudioChannelSet := ⟨[3]⟩

def stereo : AudioChannelSet := ⟨[1, 2]⟩

def size (s : AudioChannelSet) : Nat := s.channels.length

end AudioChannelSet

namespace NormalisableRange

variable {K : Type} [LinearOrderedField K] [FloorRing K]

/-- The framework's `snapToLegalValue`: round to the interval grid, then limit to
`[start, end]`. -/
def snapToLegalValue (r : NormalisableRange K) (v : K) : K :=
  let v1 := if 0 < r.interval then
      r.start + r.interval * ((⌊(v - r.start) / r.interval + 1 / 2⌋ : ℤ) : K)
    else v
  if v1 ≤ r.start ∨ r.stop ≤ r.start then r.start else if r.stop ≤ v1 then r.stop else v1

/-- A value the range admits: one that `snapToLegalValue` leaves alone. -/
def admits (r : NormalisableRange K) (v : K) : Prop := r.snapToLegalValue v = v

instance (r : NormalisableRange K) (v : K) : Decidable (r.admits v) := by
  unfold admits; infer_instance

end NormalisableRange

namespace AudioProcessorValueTreeState

variable {K : Type}

/-- The lookup `getRawParameterValue (id)`; `none` is the null pointer. -/
def getRawParameterValue (t : AudioProcessorValueTreeState K) (id : String) : Option K :=
  (t.parameters.find? (fun p => p.paramID == id)).map (fun p => p.value)

def addParameterListener (t : AudioProcessorValueTreeState K) (id : String) :
    AudioProcessorValueTreeState K :=
  { t with listeners := t.listeners ++ [id] }

end AudioProcessorValueTreeState

namespace AudioBuffer

variable {K : Type}

def getNumSamples (b : AudioBuffer K) : Nat := b.size

def getNumChannels (b : AudioBuffer K) : Nat := b.channels.length

/-- The pointer `getReadPointer (c)` / `getWritePointer (c)`: the samples of channel `c`. -/
def getReadPointer (b : AudioBuffer K) (c : Nat) : Option (List K) := b.channels[c]?

/-- A store `p[i] = v` through the write pointer of channel `c`. -/
def store (b : AudioBuffer K) (c i : Nat) (v : K) : Option (AudioBuffer K) :=
  match b.channels[c]? with
  | none => none
  | some ch => if i < ch.length then some { b with channels := b.channels.set c (ch.set i v) }
               else none

/-- The call `clear (c, 0, n)`: zero the first `n` samples of channel `c`. -/
def clear [Zero K] (b : AudioBuffer K) (c n : Nat) : Option (AudioBuffer K) :=
  match b.channels[c]? with
  | none => none
  | some ch => if n ≤ ch.length
      then some { b with channels := b.channels.set c (List.replicate n 0 ++ ch.drop n) }
      else none

end AudioBuffer

/-! ## The processor -/

section Processor

variable {σ K : Type} [LinearOrderedField K]

/-- `createParameterLayout` (source lines 40-59). -/
def createParameterLayout : List (AudioParameterFloat K) :=
  let delayTimeRange : NormalisableRange K := ⟨0, 2000, 1, 1, false⟩
  let delayFeedbackRange : NormalisableRange K := ⟨0, 100, 1, 1, false⟩
  let wetLevelRange : NormalisableRange K := ⟨-60, 12, 1, 1, false⟩
  let dryLevelRange : NormalisableRange K := ⟨-60, 12, 1, 1, false⟩
  [ ⟨"delayTimeID", "time", delayTimeRange, 250⟩,
    ⟨"delayFeedbackID", "feedback", delayFeedbackRange, 30⟩,
    ⟨"wetLevelID", "wetLevel", wetLevelRange, -3⟩,
    ⟨"dryLevelID", "dryLevel", dryLevelRange, -3⟩ ]

/-- The range a parameter of the layout was declared with. -/
def declaredRange (id : String) : Option (NormalisableRange K) :=
  ((createParameterLayout (K := K)).find? (fun p => p.paramID == id)).map (fun p => p.range)

/-- The constructor (source lines 13-29) of an audio effect (neither MIDI effect nor synth):
stereo input and output bus, the tree built from `createParameterLayout`, and the four
listeners.  The initial values of the members `params` and `analogDelay` come from
declarations outside the sources and are arguments. -/
def construct (e0 : σ) (p0 : AudioDelayParameters K) : AnalogDelayAudioProcessor σ K :=
  let treeState : AudioProcessorValueTreeState K := ⟨createParameterLayout, []⟩
  let treeState := treeState.addParameterListener "delayTimeID"
  let treeState := treeState.addParameterListener "delayFeedbackID"
  let treeState := treeState.addParameterListener "wetLevelID"
  let treeState := treeState.addParameterListener "dryLevelID"
  { layouts := ⟨AudioChannelSet.stereo, AudioChannelSet.stereo⟩
    treeState := treeState
    params := p0
    analogDelay := e0 }

/-- `parameterChanged` (source lines 61-87): four consecutive tests on the parameter ID. -/
def parameterChanged (E : DelayEngineOps σ K) (parameterID : String) (newValue : K)
    (st : AnalogDelayAudioProcessor σ K) : AnalogDelayAudioProcessor σ K :=
  let st :=
    if parameterID = "delayTimeID" then
      let params := { st.params with leftDelay_mSec := newValue }
      let params := { params with rightDelay_mSec := newValue }
      { st with params := params, analogDelay := E.setParameters st.analogDelay params }
    else st
  let st :=
    if parameterID = "delayFeedbackID" then
      let params := { st.params with feedback_Pct := newValue }
      { st with params := params, analogDelay := E.setParameters st.analogDelay params }
    else st
  let st :=
    if parameterID = "wetLevelID" then
      let params := { st.params with wetLevel_dB := newValue }
      { st with params := params, analogDelay := E.setParameters st.analogDelay params }
    else st
  let st :=
    if parameterID = "dryLevelID" then
      let params := { st.params with dryLevel_dB := newValue }
      { st with params := params, analogDelay := E.setParameters st.analogDelay params }
    else st
  st

set_option linter.unusedVariables false in
/-- `prepareToPlay` (source lines 152-167); `samplesPerBlock` is not used by the source
either. -/
def prepareToPlay (E : DelayEngineOps σ K) (sampleRate : K) (samplesPerBlock : Int)
    (st : AnalogDelayAudioProcessor σ K) : Option (AnalogDelayAudioProcessor σ K) := do
  let analogDelay := E.reset st.analogDelay sampleRate
  let analogDelay := E.createDelayBuffers analogDelay sampleRate 2000
  let params := st.params
  let params := { params with
    leftDelay_mSec := ← st.treeState.getRawParameterValue "delayTimeID" }
  let params := { params with
    rightDelay_mSec := ← st.treeState.getRawParameterValue "delayTimeID" }
  let params := { params with
    feedback_Pct := ← st.treeState.getRawParameterValue "delayFeedbackID" }
  let params := { params with
    dryLevel_dB := ← st.treeState.getRawParameterValue "dryLevelID" }
  let params := { params with
    wetLevel_dB := ← st.treeState.getRawParameterValue "wetLevelID" }
  let analogDelay := E.setParameters analogDelay params
  pure { st with params := params, analogDelay := analogDelay }

def getTotalNumInputChannels (st : AnalogDelayAudioProcessor σ K) : Nat :=
  st.layouts.mainInput.size

def getTotalNumOutputChannels (st : AnalogDelayAudioProcessor σ K) : Nat :=
  st.layouts.mainOutput.size

/-- `isBusesLayoutSupported` (source lines 176-198). -/
def isBusesLayoutSupported (flags : BuildFlags) (layouts : BusesLayout) : Bool :=
  if flags.JucePlugin_IsMidiEffect then true
  else if layouts.mainOutput ≠ AudioChannelSet.mono
      ∧ layouts.mainOutput ≠ AudioChannelSet.stereo then false
  else if ¬ flags.JucePlugin_IsSynth ∧ layouts.mainOutput ≠ layouts.mainInput then false
  else true

/-- The first loop of `processBlock` (source lines 209-210): channels `i`, `i + 1`, ... below
`totalNumOutputChannels` are cleared; `fuel` is the number of iterations left. -/
def clearLoop : (fuel i : Nat) → AudioBuffer K → Option (AudioBuffer K)
  | 0, _, buffer => some buffer
  | fuel + 1, i, buffer => do
    let buffer ← buffer.clear i buffer.getNumSamples
    clearLoop fuel (i + 1) buffer

/-- The sample loop of `processBlock` (source lines 213-227), from index `sample` on, with
`fuel = numSamples - sample` iterations left. -/
def sampleLoop (E : DelayEngineOps σ K) :
    (fuel sample : Nat) → σ → AudioBuffer K → Option (σ × AudioBuffer K)
  | 0, _, analogDelay, buffer => some (analogDelay, buffer)
  | fuel + 1, sample, analogDelay, buffer => do
    let xnL ← buffer.getReadPointer 0
    let xnR ← buffer.getReadPointer 1
    let inputs : K × K := (← xnL[sample]?, ← xnR[sample]?)
    let outputs : K × K := (0, 0)
    let (analogDelay, outputs) := E.processAudioFrame analogDelay inputs outputs 2 2
    let buffer ← buffer.store 0 sample outputs.1
    let buffer ← buffer.store 1 sample outputs.2
    sampleLoop E fuel (sample + 1) analogDelay buffer

/-- `processBlock` (source lines 201-228). -/
def processBlock (E : DelayEngineOps σ K) (st : AnalogDelayAudioProcessor σ K)
    (buffer : AudioBuffer K) : Option (AnalogDelayAudioProcessor σ K × AudioBuffer K) := do
  let totalNumInputChannels := getTotalNumInputChannels st
  let totalNumOutputChannels := getTotalNumOutputChannels st
  let numSamples := buffer.getNumSamples
  let buffer ← clearLoop (totalNumOutputChannels - totalNumInputChannels)
    totalNumInputChannels buffer
  let (analogDelay, buffer) ← sampleLoop E numSamples 0 st.analogDelay buffer
  pure ({ st with analogDelay := analogDelay }, buffer)

end Processor

/-! ## A recording engine -/

/-- One call on the engine object, with its arguments. -/
inductive EngineCall (K : Type) where
  | reset (sampleRate : K)
  | createDelayBuffers (sampleRate bufferLength_mSec : K)
  | setParameters (params : AudioDelayParameters K)
  | processAudioFrame (inputs outputs : K × K) (inputChannels outputChannels : Nat)
deriving DecidableEq

/-- The engine whose state is the list of calls made on it so far, oldest first; it leaves
the `outputs` array of a frame as it received it. -/
def recorder (K : Type) : DelayEngineOps (List (EngineCall K)) K where
  reset := fun log sampleRate => log ++ [EngineCall.reset sampleRate]
  createDelayBuffers := fun log sampleRate ms => log ++ [EngineCall.createDelayBuffers sampleRate ms]
  setParameters := fun log p => log ++ [EngineCall.setParameters p]
  processAudioFrame := fun log inputs outputs nIn nOut =>
    (log ++ [EngineCall.processAudioFrame inputs outputs nIn nOut], outputs)

/-! ## Control-rate runs -/

/-- A control-rate call on the processor. -/
inductive ControlEvent (K : Type) where
  | parameterChanged (parameterID : String) (newValue : K)
  | prepareToPlay (sampleRate : K) (samplesPerBlock : Int)

/-- One control-rate call. -/
def applyEvent {σ K : Type} [LinearOrderedField K] (E : DelayEngineOps σ K) :
    ControlEvent K → AnalogDelayAudioProcessor σ K → Option (AnalogDelayAudioProcessor σ K)
  | .parameterChanged parameterID newValue, st => some (parameterChanged E parameterID newValue st)
  | .prepareToPlay sampleRate samplesPerBlock, st => prepareToPlay E sampleRate samplesPerBlock st

/-- A sequence of control-rate calls, first to last. -/
def applyEvents {σ K : Type} [LinearOrderedField K] (E : DelayEngineOps σ K) :
    List (ControlEvent K) → AnalogDelayAudioProcessor σ K →
      Option (AnalogDelayAudioProcessor σ K)
  | [], st => some st
  | ev :: evs, st => (applyEvent E ev st).bind (applyEvents E evs)

/-! ## Definitions that follow the specification -/

/-- Modelled from the spec: `set (field, value)` of §4.3 "clamps `value` to the field's valid
range"; this is the clamp into the closed range `[lo, hi]`. -/
def clampToRange {K : Type} [LinearOrder K] (lo hi v : K) : K := max lo (min hi v)

/-- Modelled from the spec: the capacity `C = ceil (sampleRate * maxDelayMs / 1000)` that
`createDelayBuffers (sampleRate, maxDelayMs)` gives a delay buffer (§3, §4.4 `configure`); the
body of `createDelayBuffers` is not part of the sources. -/
def bufferCapacity {K : Type} [LinearOrderedField K] [FloorRing K] (sampleRate maxDelayMs : K) :
    ℤ :=
  ⌈sampleRate * maxDelayMs / 1000⌉

/-- The left fold of the per-frame step over a sequence of input frames: the engine state
after the last frame and the output frames in order.  Every frame is handed to the engine with
a zeroed `outputs` array and the channel counts 2 and 2, as `processBlock` does. -/
def foldFrames {σ K : Type} [Zero K] (E : DelayEngineOps σ K) (e : σ) (frames : List (K × K)) :
    σ × List (K × K) :=
  frames.foldl
    (fun acc x => ((E.processAudioFrame acc.1 x (0, 0) 2 2).1,
      acc.2 ++ [(E.processAudioFrame acc.1 x (0, 0) 2 2).2]))
    (e, [])

/-- The parameter struct holding the defaults of the layout. -/
def defaultParams (K : Type) [LinearOrderedField K] : AudioDelayParameters K :=
  ⟨250, 250, 30, -3, -3⟩

/-! ## The delay engine of the specification

The class of the member `analogDelay` is not part of the sources; what follows is the engine
the specification describes (§3, §4). -/

/-- Modelled from the spec: a DelayBuffer (§3), the class behind `analogDelay` being absent from
the sources: `storage` of fixed capacity `C = storage.length` and the write cursor. -/
structure DelayBuffer (K : Type) where
  storage : List K
  writeIndex : Nat
deriving DecidableEq

/-- Modelled from the spec: the engine state (§3), absent from the sources: the sample rate
given to `configure`, one DelayBuffer per channel and the ParameterState. -/
structure DelayEngine (K : Type) where
  sampleRate : K
  left : DelayBuffer K
  right : DelayBuffer K
  params : AudioDelayParameters K
deriving DecidableEq

/-- Modelled from the spec: the two numeric choices the engine text leaves to its
implementation, absent from the sources.  `dbToGain x` stands for `10 ^ (x / 20)` (§4.4 step
4), which an ordered field does not provide; `feedbackLimit` is the value `set` stores for a
feedback of 100 or more, the valid range `[0, 100)` having no largest element (§3, §9). -/
structure EngineNumerics (K : Type) where
  dbToGain : K → K
  feedbackLimit : K

namespace DelayBuffer

variable {K : Type}

/-- Modelled from the spec: the fixed capacity `C` of a DelayBuffer (§3), absent from the
sources: the number of samples its storage holds. -/
def capacity (b : DelayBuffer K) : Nat := b.storage.length

/-- Modelled from the spec: `write (sample)` of §4.1, absent from the sources: store at
`writeIndex`, then advance the cursor by 1 mod `C`. -/
def write (b : DelayBuffer K) (sample : K) : DelayBuffer K :=
  { storage := b.storage.set b.writeIndex sample
    writeIndex := (b.writeIndex + 1) % b.capacity }

/-- Modelled from the spec: a position "wrapped into `[0, C)`" (§4.1), absent from the
sources. -/
def wrap [LinearOrderedField K] [FloorRing K] (C : Nat) (pos : K) : K :=
  pos - (C : K) * ((⌊pos / (C : K)⌋ : ℤ) : K)

/-- Modelled from the spec: the Interpolator of §4.2, absent from the sources: linear
interpolation between `storage[floor pos]` and `storage[(floor pos + 1) mod C]`. -/
def interpolate [LinearOrderedField K] [FloorRing K] (b : DelayBuffer K) (pos : K) : K :=
  let i := ⌊pos⌋.toNat
  let frac := pos - ((⌊pos⌋ : ℤ) : K)
  b.storage.getD i 0 * (1 - frac) + b.storage.getD ((i + 1) % b.capacity) 0 * frac

/-- Modelled from the spec: `readDelayed (delaySamples)` of §4.1, absent from the sources:
the interpolated value at `writeIndex - delaySamples`, wrapped into `[0, C)`. -/
def readDelayed [LinearOrderedField K] [FloorRing K] (b : DelayBuffer K) (delaySamples : K) :
    K :=
  b.interpolate (wrap b.capacity ((b.writeIndex : K) - delaySamples))

/-- Modelled from the spec: a zero-filled buffer of capacity `C` with its cursor at 0 (§4.4
`configure`), absent from the sources. -/
def allocate [Zero K] (C : Nat) : DelayBuffer K := ⟨List.replicate C 0, 0⟩

end DelayBuffer

namespace DelayEngine

variable {K : Type} [LinearOrderedField K] [FloorRing K]

/-- Modelled from the spec: the engine at construction (§3), absent from the sources: not
configured, ParameterState at its defaults. -/
def unconfigured : DelayEngine K := ⟨0, ⟨[], 0⟩, ⟨[], 0⟩, defaultParams K⟩

/-- Modelled from the spec: `configure (sampleRate, maxDelayMs)` of §4.4, absent from the
sources: both buffers get capacity `ceil (sampleRate * maxDelayMs / 1000)`, cursors at 0,
storage zero-filled. -/
def configure (e : DelayEngine K) (sampleRate maxDelayMs : K) : DelayEngine K :=
  { e with
    sampleRate := sampleRate
    left := DelayBuffer.allocate (bufferCapacity sampleRate maxDelayMs).toNat
    right := DelayBuffer.allocate (bufferCapacity sampleRate maxDelayMs).toNat }

/-- Modelled from the spec: `reset ()` of §4.4, absent from the sources: zero-fill both
buffers and reset the cursors, without reallocating. -/
def reset (e : DelayEngine K) : DelayEngine K :=
  { e with
    left := DelayBuffer.allocate e.left.capacity
    right := DelayBuffer.allocate e.right.capacity }

/-- Modelled from the spec: `set` of §4.3 for the feedback field, absent from the sources:
the clamp into `[0, 100)`. -/
def clampFeedback (N : EngineNumerics K) (v : K) : K :=
  if v < 0 then 0 else if v < 100 then v else N.feedbackLimit

/-- Modelled from the spec: `setParameters (p)` of §4.4, absent from the sources: every field
goes through `set`, which clamps it to its valid range (§3). -/
def setParameters (N : EngineNumerics K) (e : DelayEngine K) (p : AudioDelayParameters K) :
    DelayEngine K :=
  { e with
    params :=
      { leftDelay_mSec := clampToRange 0 2000 p.leftDelay_mSec
        rightDelay_mSec := clampToRange 0 2000 p.rightDelay_mSec
        feedback_Pct := clampFeedback N p.feedback_Pct
        wetLevel_dB := clampToRange (-60) 12 p.wetLevel_dB
        dryLevel_dB := clampToRange (-60) 12 p.dryLevel_dB } }

/-- Modelled from the spec: steps 2 to 7 of `processFrame` (§4.4) for one channel, absent
from the sources: the new buffer of the channel and its output sample. -/
def processChannel (N : EngineNumerics K) (sampleRate : K) (params : AudioDelayParameters K)
    (delayMs : K) (buf : DelayBuffer K) (input : K) : DelayBuffer K × K :=
  let delaySamples := clampToRange 0 ((buf.capacity : K) - 1) (delayMs * sampleRate / 1000)
  let delayed := buf.readDelayed delaySamples
  let wetGain := N.dbToGain params.wetLevel_dB
  let dryGain := N.dbToGain params.dryLevel_dB
  let output := dryGain * input + wetGain * delayed
  let feedbackSample := input + (params.feedback_Pct / 100) * delayed
  (buf.write feedbackSample, output)

/-- Modelled from the spec: `processFrame (inputs, outputs)` of §4.4, absent from the
sources: one snapshot of the ParameterState, then the channel algorithm on left and right. -/
def processFrame (N : EngineNumerics K) (e : DelayEngine K) (inputs : K × K) :
    DelayEngine K × (K × K) :=
  let params := e.params
  let l := processChannel N e.sampleRate params params.leftDelay_mSec e.left inputs.1
  let r := processChannel N e.sampleRate params params.rightDelay_mSec e.right inputs.2
  ({ e with left := l.1, right := r.1 }, (l.2, r.2))

/-- Modelled from the spec: the engine of §4.4, absent from the sources, behind the four calls
of the processor: `reset (sampleRate)` is `reset`, `createDelayBuffers (sampleRate, ms)` is
`configure`, `processAudioFrame` is `processFrame`. -/
def ops (N : EngineNumerics K) : DelayEngineOps (DelayEngine K) K where
  reset := fun e _ => e.reset
  createDelayBuffers := fun e sampleRate maxDelayMs => e.configure sampleRate maxDelayMs
  setParameters := fun e p => e.setParameters N p
  processAudioFrame := fun e inputs _ _ _ => e.processFrame N inputs

end DelayEngine

/-! ## Levels of minus infinity

§8 of the specification states the pass-through and the pure-delay property at a level of
`-∞` dB, where the gain is 0.  No element of the field `K` is such a level, so the engine is
given a second time with the two levels of its ParameterState taken from `Level K`; at finite
levels it is the engine above. -/

/-- Modelled from the spec: a level in dB that may be `-∞` (§8: "`wetLevelDb = -∞` (or wet gain
0)", "`dryLevelDb = -∞`"), the engine class being absent from the sources. -/
inductive Level (K : Type) where
  | negInfinity
  | dB (x : K)
deriving DecidableEq

/-- Modelled from the spec: the gain of a level (§4.4 step 4 and §8), absent from the sources:
`dbToGain x`, that is `10 ^ (x / 20)`, at the finite level `x`, and 0 at `-∞`. -/
def EngineNumerics.levelGain {K : Type} [Zero K] (N : EngineNumerics K) : Level K → K
  | .negInfinity => 0
  | .dB x => N.dbToGain x

/-- Modelled from the spec: the engine state of §3, absent from the sources, with the wet and
the dry level of its ParameterState in `Level K`. -/
structure DelayEngineExt (K : Type) where
  sampleRate : K
  left : DelayBuffer K
  right : DelayBuffer K
  leftDelay_mSec : K
  rightDelay_mSec : K
  feedback_Pct : K
  wetLevel_dB : Level K
  dryLevel_dB : Level K
deriving DecidableEq

namespace DelayEngineExt

variable {K : Type} [LinearOrderedField K] [FloorRing K]

/-- The engine state with finite levels as a state with levels in `Level K`. -/
def ofEngine (e : DelayEngine K) : DelayEngineExt K :=
  { sampleRate := e.sampleRate
    left := e.left
    right := e.right
    leftDelay_mSec := e.params.leftDelay_mSec
    rightDelay_mSec := e.params.rightDelay_mSec
    feedback_Pct := e.params.feedback_Pct
    wetLevel_dB := .dB e.params.wetLevel_dB
    dryLevel_dB := .dB e.params.dryLevel_dB }

/-- Modelled from the spec: `configure (sampleRate, maxDelayMs)` of §4.4, absent from the
sources, as `DelayEngine.configure`. -/
def configure (e : DelayEngineExt K) (sampleRate maxDelayMs : K) : DelayEngineExt K :=
  { e with
    sampleRate := sampleRate
    left := DelayBuffer.allocate (bufferCapacity sampleRate maxDelayMs).toNat
    right := DelayBuffer.allocate (bufferCapacity sampleRate maxDelayMs).toNat }

/-- Modelled from the spec: `reset ()` of §4.4, absent from the sources, as
`DelayEngine.reset`. -/
def reset (e : DelayEngineExt K) : DelayEngineExt K :=
  { e with
    left := DelayBuffer.allocate e.left.capacity
    right := DelayBuffer.allocate e.right.capacity }

/-- Modelled from the spec: `setParameters (p)` of §4.4, absent from the sources, as
`DelayEngine.setParameters`: every field is clamped to its valid range, so the levels it
stores are finite. -/
def setParameters (N : EngineNumerics K) (e : DelayEngineExt K) (p : AudioDelayParameters K) :
    DelayEngineExt K :=
  { e with
    leftDelay_mSec := clampToRange 0 2000 p.leftDelay_mSec
    rightDelay_mSec := clampToRange 0 2000 p.rightDelay_mSec
    feedback_Pct := DelayEngine.clampFeedback N p.feedback_Pct
    wetLevel_dB := .dB (clampToRange (-60) 12 p.wetLevel_dB)
    dryLevel_dB := .dB (clampToRange (-60) 12 p.dryLevel_dB) }

/-- Modelled from the spec: steps 2 to 7 of `processFrame` (§4.4) for one channel, absent
from the sources, as `DelayEngine.processChannel` with the gains of step 4 taken by
`levelGain`. -/
def processChannel (N : EngineNumerics K) (e : DelayEngineExt K) (delayMs : K)
    (buf : DelayBuffer K) (input : K) : DelayBuffer K × K :=
  let delaySamples := clampToRange 0 ((buf.capacity : K) - 1) (delayMs * e.sampleRate / 1000)
  let delayed := buf.readDelayed delaySamples
  let wetGain := N.levelGain e.wetLevel_dB
  let dryGain := N.levelGain e.dryLevel_dB
  let output := dryGain * input + wetGain * delayed
  let feedbackSample := input + (e.feedback_Pct / 100) * delayed
  (buf.write feedbackSample, output)

/-- Modelled from the spec: `processFrame (inputs, outputs)` of §4.4, absent from the
sources, as `DelayEngine.processFrame`. -/
def processFrame (N : EngineNumerics K) (e : DelayEngineExt K) (inputs : K × K) :
    DelayEngineExt K × (K × K) :=
  let l := processChannel N e e.leftDelay_mSec e.left inputs.1
  let r := processChannel N e e.rightDelay_mSec e.right inputs.2
  ({ e with left := l.1, right := r.1 }, (l.2, r.2))

/-- Modelled from the spec: the engine with levels in `Level K` behind the four calls of the
processor, absent from the sources, as `DelayEngine.ops`. -/
def ops (N : EngineNumerics K) : DelayEngineOps (DelayEngineExt K) K where
  reset := fun e _ => e.reset
  createDelayBuffers := fun e sampleRate maxDelayMs => e.configure sampleRate maxDelayMs
  setParameters := fun e p => e.setParameters N p
  processAudioFrame := fun e inputs _ _ _ => e.processFrame N inputs

end DelayEngineExt

/-- The unit impulse of `n` samples: 1 at sample 0, then silence. -/
def impulse (K : Type) [Zero K] [One K] (n : Nat) : List K :=
  (List.range n).map (fun t => if t = 0 then 1 else 0)

/-- A gain law on `ℚ` for evaluating the engine on concrete inputs: linear in the level, with
gain 0 at -60 dB and gain 1 at 0 dB; a feedback of 100 or more is stored as 99. -/
def linearGain : EngineNumerics ℚ := ⟨fun x => (x + 60) / 60, 99⟩

/-- The feedback samples an impulse leaves in the delay line: `φ ^ k` at time `k * d`, zero at
every other time. -/
def echoTrain {K : Type} [Field K] (φ : K) (d t : Nat) : K :=
  if t % d = 0 then φ ^ (t / d) else 0

/-- The impulse response in closed form, as a function of the sample index:
`g` at sample 0, `w * φ ^ (k - 1)` at sample `k * d` for `k ≥ 1`, zero at every other
sample. -/
def impulseResponse {K : Type} [Field K] (g w φ : K) (d t : Nat) : K :=
  if t = 0 then g else if t % d = 0 then w * φ ^ (t / d - 1) else 0

/-- The impulse response as a property of a list of output samples: `g` at
sample 0, `w * φ ^ (k - 1)` at sample `k * d` for every `k ≥ 1`, and 0 at every sample that is
not a multiple of `d`. -/
def IsImpulseResponse {K : Type} [Field K] (g w φ : K) (d : Nat) (outs : List K) : Prop :=
  (0 < outs.length → outs[0]? = some g)
  ∧ (∀ k, 1 ≤ k → k * d < outs.length → outs[k * d]? = some (w * φ ^ (k - 1)))
  ∧ (∀ t, t < outs.length → (∀ k, t ≠ k * d) → outs[t]? = some 0)

/-- The state of a delay buffer `t` samples after it was zero-filled, when the samples
written were `sig 0, sig 1, ...`: the cursor is at `t mod C`, each of the last `C` samples is
in its slot, and a slot not written yet holds zero. -/
structure DelayBuffer.HoldsSignal {K : Type} [Zero K] (sig : Nat → K) (C t : Nat)
    (b : DelayBuffer K) : Prop where
  capacity_eq : b.capacity = C
  cursor : b.writeIndex = t % C
  written : ∀ s, s < t → t ≤ s + C → b.storage.getD (s % C) 0 = sig s
  fresh : ∀ i, t ≤ i → i < C → b.storage.getD i 0 = 0

/-! ## Theorems -/

section ProcessorTheorems

variable {σ K : Type}

/-- C4: `parameterChanged (id, v)` updates the parameter state field by field.  For
`delayTimeID` it sets both delay times to `v`, for `delayFeedbackID` the feedback, for
`wetLevelID` the wet level, for `dryLevelID` the dry level; every other field of `params` and
every other member keeps its value, and the engine state afterwards is the result of one
`setParameters` call on the updated struct (on the recording engine: exactly one call is
appended).  For every other id the processor is unchanged and no call is made. -/
theorem parameterChanged_field_by_field (E : DelayEngineOps σ K) (v : K)
    (st : AnalogDelayAudioProcessor σ K) (rt : AnalogDelayAudioProcessor (List (EngineCall K)) K) :
    (let p := { st.params with leftDelay_mSec := v, rightDelay_mSec := v };
      parameterChanged E "delayTimeID" v st
        = { st with params := p, analogDelay := E.setParameters st.analogDelay p })
    ∧ (let p := { st.params with feedback_Pct := v };
      parameterChanged E "delayFeedbackID" v st
        = { st with params := p, analogDelay := E.setParameters st.analogDelay p })
    ∧ (let p := { st.params with wetLevel_dB := v };
      parameterChanged E "wetLevelID" v st
        = { st with params := p, analogDelay := E.setParameters st.analogDelay p })
    ∧ (let p := { st.params with dryLevel_dB := v };
      parameterChanged E "dryLevelID" v st
        = { st with params := p, analogDelay := E.setParameters st.analogDelay p })
    ∧ (parameterChanged (recorder K) "delayTimeID" v rt).analogDelay
        = rt.analogDelay ++ [EngineCall.setParameters
            { rt.params with leftDelay_mSec := v, rightDelay_mSec := v }]
    ∧ (parameterChanged (recorder K) "delayFeedbackID" v rt).analogDelay
        = rt.analogDelay ++ [EngineCall.setParameters { rt.params with feedback_Pct := v }]
    ∧ (parameterChanged (recorder K) "wetLevelID" v rt).analogDelay
        = rt.analogDelay ++ [EngineCall.setParameters { rt.params with wetLevel_dB := v }]
    ∧ (parameterChanged (recorder K) "dryLevelID" v rt).analogDelay
        = rt.analogDelay ++ [EngineCall.setParameters { rt.params with dryLevel_dB := v }]
    ∧ ∀ id : String, id ≠ "delayTimeID" → id ≠ "delayFeedbackID" → id ≠ "wetLevelID" →
        id ≠ "dryLevelID" →
        parameterChanged E id v st = st ∧ (parameterChanged (recorder K) id v rt) = rt := by
  refine ⟨?_, ?_, ?_, ?_, ?_, ?_, ?_, ?_, ?_⟩
  · simp [parameterChanged]
  · simp [parameterChanged]
  · simp [parameterChanged]
  · simp [parameterChanged]
  · simp [parameterChanged, recorder]
  · simp [parameterChanged, recorder]
  · simp [parameterChanged, recorder]
  · simp [parameterChanged, recorder]
  · intro id h1 h2 h3 h4
    simp [parameterChanged, h1, h2, h3, h4]

/-- Witness for C4 on the recording engine: an unknown id leaves the processor as it was. -/
theorem parameterChanged_field_by_field_witness :
    parameterChanged (recorder ℚ) "bypassID" 5 (construct [] (defaultParams ℚ))
      = construct [] (defaultParams ℚ) :=
  ((parameterChanged_field_by_field (recorder ℚ) 5 (construct [] (defaultParams ℚ))
    (construct [] (defaultParams ℚ))).2.2.2.2.2.2.2.2 "bypassID"
    (by decide) (by decide) (by decide) (by decide)).1

/-! ### Ranges -/

/-- A value admitted by a range with `start ≤ end` lies in `[start, end]`. -/
theorem NormalisableRange.admits_bounds [LinearOrderedField K] [FloorRing K]
    (r : NormalisableRange K) (hr : r.start ≤ r.stop) (v : K) (h : r.admits v) :
    r.start ≤ v ∧ v ≤ r.stop := by
  unfold NormalisableRange.admits NormalisableRange.snapToLegalValue at h
  simp only at h
  by_cases h1 : 0 < r.interval <;> simp only [h1, if_true, if_false] at h <;>
    split_ifs at h with h2 h3 <;>
    first
      | exact ⟨h.le, h ▸ hr⟩
      | exact ⟨h ▸ hr, h.ge⟩
      | exact ⟨(lt_of_lt_of_eq (not_le.mp fun hc => h2 (Or.inl hc)) h).le,
          (lt_of_eq_of_lt h.symm (not_le.mp h3)).le⟩

theorem declaredRange_delayTime [LinearOrderedField K] :
    declaredRange (K := K) "delayTimeID" = some ⟨0, 2000, 1, 1, false⟩ := by
  simp [declaredRange, createParameterLayout]

theorem declaredRange_delayFeedback [LinearOrderedField K] :
    declaredRange (K := K) "delayFeedbackID" = some ⟨0, 100, 1, 1, false⟩ := by
  simp [declaredRange, createParameterLayout]

/-! ### prepareToPlay -/

/-- What `prepareToPlay` computes when the four lookups succeed. -/
theorem prepareToPlay_of_lookups (E : DelayEngineOps σ K) [LinearOrderedField K]
    (sampleRate : K) (samplesPerBlock : Int) (st : AnalogDelayAudioProcessor σ K)
    (dt fb wet dry : K)
    (hdt : st.treeState.getRawParameterValue "delayTimeID" = some dt)
    (hfb : st.treeState.getRawParameterValue "delayFeedbackID" = some fb)
    (hwet : st.treeState.getRawParameterValue "wetLevelID" = some wet)
    (hdry : st.treeState.getRawParameterValue "dryLevelID" = some dry) :
    prepareToPlay E sampleRate samplesPerBlock st
      = some { st with
          params := ⟨dt, dt, fb, wet, dry⟩
          analogDelay := E.setParameters
            (E.createDelayBuffers (E.reset st.analogDelay sampleRate) sampleRate 2000)
            ⟨dt, dt, fb, wet, dry⟩ } := by
  simp [prepareToPlay, hdt, hfb, hwet, hdry]

/-- A successful `prepareToPlay` found all four parameters. -/
theorem prepareToPlay_lookups (E : DelayEngineOps σ K) [LinearOrderedField K]
    (sampleRate : K) (samplesPerBlock : Int) (st st1 : AnalogDelayAudioProcessor σ K)
    (h : prepareToPlay E sampleRate samplesPerBlock st = some st1) :
    ∃ dt fb wet dry,
      st.treeState.getRawParameterValue "delayTimeID" = some dt
      ∧ st.treeState.getRawParameterValue "delayFeedbackID" = some fb
      ∧ st.treeState.getRawParameterValue "wetLevelID" = some wet
      ∧ st.treeState.getRawParameterValue "dryLevelID" = some dry := by
  cases hdt : st.treeState.getRawParameterValue "delayTimeID" <;>
  cases hfb : st.treeState.getRawParameterValue "delayFeedbackID" <;>
  cases hwet : st.treeState.getRawParameterValue "wetLevelID" <;>
  cases hdry : st.treeState.getRawParameterValue "dryLevelID" <;>
  simp [prepareToPlay, hdt, hfb, hwet, hdry] at h ⊢

/-- The lookups on a newly constructed processor give the defaults of the layout. -/
theorem construct_lookups [LinearOrderedField K] (e0 : σ) (p0 : AudioDelayParameters K) :
    (construct e0 p0).treeState.getRawParameterValue "delayTimeID" = some 250
    ∧ (construct e0 p0).treeState.getRawParameterValue "delayFeedbackID" = some 30
    ∧ (construct e0 p0).treeState.getRawParameterValue "wetLevelID" = some (-3)
    ∧ (construct e0 p0).treeState.getRawParameterValue "dryLevelID" = some (-3) := by
  simp [construct, createParameterLayout, AudioProcessorValueTreeState.getRawParameterValue,
    AudioProcessorValueTreeState.addParameterListener]

/-! ### The parameter state on parameter changes -/

/-- C2 (as stated, refuted): `parameterChanged ("delayTimeID", 5000)` leaves 5000 in
`leftDelay_mSec`, which is neither the clamp of 5000 into `[0, 2000]` nor a value of that
range, and it is this struct that `setParameters` receives. -/
theorem parameterChanged_not_clamped :
    (parameterChanged (recorder ℚ) "delayTimeID" 5000
        (construct [] (defaultParams ℚ))).params.leftDelay_mSec ≠ clampToRange 0 2000 5000
    ∧ ¬ (parameterChanged (recorder ℚ) "delayTimeID" 5000
        (construct [] (defaultParams ℚ))).params.leftDelay_mSec ≤ 2000
    ∧ (parameterChanged (recorder ℚ) "delayTimeID" 5000
        (construct [] (defaultParams ℚ))).analogDelay
      = [EngineCall.setParameters ⟨5000, 5000, 30, -3, -3⟩] := by
  refine ⟨?_, ?_, ?_⟩
  · simp [parameterChanged, clampToRange]; norm_num
  · simp [parameterChanged]; norm_num
  · simp [parameterChanged, recorder, construct, defaultParams]

/-- C2 (amended): after `parameterChanged (id, newValue)` each field of `params` it writes,
and so the struct handed to `setParameters`, holds `newValue` itself, not clamped.  Hence the
field lies in its valid range (and equals `newValue` clamped into it) whenever `newValue`
does: delay in `[0, 2000]`, feedback in `[0, 100)`, wet and dry level in `[-60, 12]`. -/
theorem parameterChanged_stores_newValue [LinearOrderedField K] (E : DelayEngineOps σ K)
    (newValue : K) (st : AnalogDelayAudioProcessor σ K)
    (rt : AnalogDelayAudioProcessor (List (EngineCall K)) K) :
    ((parameterChanged E "delayTimeID" newValue st).params.leftDelay_mSec = newValue
      ∧ (parameterChanged E "delayTimeID" newValue st).params.rightDelay_mSec = newValue
      ∧ (parameterChanged E "delayFeedbackID" newValue st).params.feedback_Pct = newValue
      ∧ (parameterChanged E "wetLevelID" newValue st).params.wetLevel_dB = newValue
      ∧ (parameterChanged E "dryLevelID" newValue st).params.dryLevel_dB = newValue)
    ∧ (∀ id ∈ ["delayTimeID", "delayFeedbackID", "wetLevelID", "dryLevelID"],
        (parameterChanged (recorder K) id newValue rt).analogDelay
          = rt.analogDelay
            ++ [EngineCall.setParameters (parameterChanged (recorder K) id newValue rt).params])
    ∧ (0 ≤ newValue → newValue ≤ 2000 →
        (parameterChanged E "delayTimeID" newValue st).params.leftDelay_mSec
          = clampToRange 0 2000 newValue
        ∧ (parameterChanged E "delayTimeID" newValue st).params.rightDelay_mSec
          = clampToRange 0 2000 newValue)
    ∧ (0 ≤ newValue → newValue < 100 →
        0 ≤ (parameterChanged E "delayFeedbackID" newValue st).params.feedback_Pct
        ∧ (parameterChanged E "delayFeedbackID" newValue st).params.feedback_Pct < 100)
    ∧ (-60 ≤ newValue → newValue ≤ 12 →
        (parameterChanged E "wetLevelID" newValue st).params.wetLevel_dB
          = clampToRange (-60) 12 newValue
        ∧ (parameterChanged E "dryLevelID" newValue st).params.dryLevel_dB
          = clampToRange (-60) 12 newValue) := by
  refine ⟨by simp [parameterChanged], ?_, ?_, ?_, ?_⟩
  · intro id hid
    simp only [List.mem_cons, List.mem_singleton, List.not_mem_nil, or_false] at hid
    rcases hid with rfl | rfl | rfl | rfl <;> simp [parameterChanged, recorder]
  · intro h0 h1
    simp [parameterChanged, clampToRange, h0, h1]
  · intro h0 h1
    simp [parameterChanged, h0, h1]
  · intro h0 h1
    simp [parameterChanged, clampToRange, h0, h1]

/-- Witness for C2 (amended): the value 500 for the delay time. -/
theorem parameterChanged_stores_newValue_witness :
    (parameterChanged (recorder ℚ) "delayTimeID" 500
        (construct [] (defaultParams ℚ))).params.leftDelay_mSec = clampToRange 0 2000 500
    ∧ (parameterChanged (recorder ℚ) "delayTimeID" 500
        (construct [] (defaultParams ℚ))).params.rightDelay_mSec = clampToRange 0 2000 500 :=
  (parameterChanged_stores_newValue (recorder ℚ) 500 (construct [] (defaultParams ℚ))
    (construct [] (defaultParams ℚ))).2.2.1 (by norm_num) (by norm_num)

/-- C3 (as stated, refuted): the range declared for `delayFeedbackID` admits 100, which is
not strictly less than 100, and `parameterChanged` forwards it to the engine. -/
theorem feedback_range_admits_100 :
    declaredRange (K := ℚ) "delayFeedbackID" = some ⟨0, 100, 1, 1, false⟩
    ∧ (⟨0, 100, 1, 1, false⟩ : NormalisableRange ℚ).admits 100
    ∧ ¬ ((100 : ℚ) < 100)
    ∧ (parameterChanged (recorder ℚ) "delayFeedbackID" 100
        (construct [] (defaultParams ℚ))).analogDelay
      = [EngineCall.setParameters ⟨250, 250, 100, -3, -3⟩] := by
  refine ⟨declaredRange_delayFeedback, ?_, lt_irrefl _, ?_⟩
  · have hfl : ⌊(2 : ℚ)⁻¹⌋ = 0 := by
      rw [Int.floor_eq_iff]; norm_num
    simp [NormalisableRange.admits, NormalisableRange.snapToLegalValue, hfl]
  · simp [parameterChanged, recorder, construct, defaultParams]

/-- C3 (amended): every feedback value admitted by the range declared for `delayFeedbackID`
is at least 0 and at most 100 (100 included); this is the `feedback_Pct` that
`parameterChanged` forwards for such a value, and the one `prepareToPlay` forwards when the
tree holds it. -/
theorem feedback_admitted_bounds [LinearOrderedField K] [FloorRing K] (E : DelayEngineOps σ K)
    (r : NormalisableRange K) (hr : declaredRange "delayFeedbackID" = some r)
    (v : K) (hv : r.admits v) (st : AnalogDelayAudioProcessor σ K) :
    (0 ≤ v ∧ v ≤ 100)
    ∧ (parameterChanged E "delayFeedbackID" v st).params.feedback_Pct = v
    ∧ ∀ sampleRate samplesPerBlock st1,
        st.treeState.getRawParameterValue "delayFeedbackID" = some v →
        prepareToPlay E sampleRate samplesPerBlock st = some st1 →
        st1.params.feedback_Pct = v := by
  rw [declaredRange_delayFeedback] at hr
  cases hr
  refine ⟨NormalisableRange.admits_bounds _ (by norm_num) v hv, by simp [parameterChanged], ?_⟩
  intro sampleRate samplesPerBlock st1 hfb h
  obtain ⟨dt, fb, wet, dry, hdt, hfb1, hwet, hdry⟩ := prepareToPlay_lookups E _ _ _ _ h
  rw [prepareToPlay_of_lookups E _ _ _ dt fb wet dry hdt hfb1 hwet hdry] at h
  cases h
  rw [hfb] at hfb1
  cases hfb1
  rfl

/-- Witness for C3 (amended): the value 30 of the declared feedback range. -/
theorem feedback_admitted_bounds_witness :
    (0 ≤ (30 : ℚ) ∧ (30 : ℚ) ≤ 100)
    ∧ (parameterChanged (recorder ℚ) "delayFeedbackID" 30
        (construct [] (defaultParams ℚ))).params.feedback_Pct = 30 :=
  have h := feedback_admitted_bounds (recorder ℚ) ⟨0, 100, 1, 1, false⟩
    declaredRange_delayFeedback 30
    (by
      have hfl : ⌊(2 : ℚ)⁻¹⌋ = 0 := by
        rw [Int.floor_eq_iff]; norm_num
      simp [NormalisableRange.admits, NormalisableRange.snapToLegalValue, hfl]
      norm_num)
    (construct [] (defaultParams ℚ))
  ⟨h.1, h.2.1⟩

/-- C6: `prepareToPlay (sampleRate, blockSize)` resets the engine, then calls
`createDelayBuffers (sampleRate, 2000)`, and only then `setParameters`; the struct it passes
holds the current values of the parameter tree, with both delay times equal to the value of
`delayTimeID`.  On a newly constructed processor the call succeeds and the struct is the
defaults: delay 250 ms on both channels, feedback 30 %, wet level -3 dB, dry level -3 dB. -/
theorem prepareToPlay_configures_then_forwards [LinearOrderedField K] (E : DelayEngineOps σ K)
    (sampleRate : K) (samplesPerBlock : Int) :
    (∀ (st : AnalogDelayAudioProcessor σ K) (dt fb wet dry : K),
        st.treeState.getRawParameterValue "delayTimeID" = some dt →
        st.treeState.getRawParameterValue "delayFeedbackID" = some fb →
        st.treeState.getRawParameterValue "wetLevelID" = some wet →
        st.treeState.getRawParameterValue "dryLevelID" = some dry →
        prepareToPlay E sampleRate samplesPerBlock st
          = some { st with
              params := ⟨dt, dt, fb, wet, dry⟩
              analogDelay := E.setParameters
                (E.createDelayBuffers (E.reset st.analogDelay sampleRate) sampleRate 2000)
                ⟨dt, dt, fb, wet, dry⟩ })
    ∧ (∀ (rt : AnalogDelayAudioProcessor (List (EngineCall K)) K) (dt fb wet dry : K),
        rt.treeState.getRawParameterValue "delayTimeID" = some dt →
        rt.treeState.getRawParameterValue "delayFeedbackID" = some fb →
        rt.treeState.getRawParameterValue "wetLevelID" = some wet →
        rt.treeState.getRawParameterValue "dryLevelID" = some dry →
        (prepareToPlay (recorder K) sampleRate samplesPerBlock rt).map (fun r => r.analogDelay)
          = some (rt.analogDelay ++
              [EngineCall.reset sampleRate, EngineCall.createDelayBuffers sampleRate 2000,
                EngineCall.setParameters ⟨dt, dt, fb, wet, dry⟩]))
    ∧ ∀ (e0 : σ) (p0 : AudioDelayParameters K),
        prepareToPlay E sampleRate samplesPerBlock (construct e0 p0)
          = some { construct e0 p0 with
              params := ⟨250, 250, 30, -3, -3⟩
              analogDelay := E.setParameters
                (E.createDelayBuffers (E.reset e0 sampleRate) sampleRate 2000)
                ⟨250, 250, 30, -3, -3⟩ } := by
  refine ⟨?_, ?_, ?_⟩
  · intro st dt fb wet dry hdt hfb hwet hdry
    exact prepareToPlay_of_lookups E _ _ st dt fb wet dry hdt hfb hwet hdry
  · intro rt dt fb wet dry hdt hfb hwet hdry
    rw [prepareToPlay_of_lookups (recorder K) _ _ rt dt fb wet dry hdt hfb hwet hdry]
    simp [recorder]
  · intro e0 p0
    obtain ⟨hdt, hfb, hwet, hdry⟩ := construct_lookups e0 p0
    rw [prepareToPlay_of_lookups E _ _ _ _ _ _ _ hdt hfb hwet hdry]
    rfl

/-- Witness for C6: the calls made on the recording engine of a new processor at 48 kHz. -/
theorem prepareToPlay_configures_then_forwards_witness :
    (prepareToPlay (recorder ℚ) 48000 512 (construct [] (defaultParams ℚ))).map
        (fun r => r.analogDelay)
      = some ([] ++ [EngineCall.reset 48000, EngineCall.createDelayBuffers 48000 2000,
          EngineCall.setParameters ⟨250, 250, 30, -3, -3⟩]) :=
  (prepareToPlay_configures_then_forwards (recorder ℚ) 48000 512).2.1
    (construct [] (defaultParams ℚ)) 250 30 (-3) (-3)
    (construct_lookups _ _).1 (construct_lookups _ _).2.1 (construct_lookups _ _).2.2.1
    (construct_lookups _ _).2.2.2

/-! ### Equal delay times -/

theorem parameterChanged_treeState (E : DelayEngineOps σ K) (id : String) (v : K)
    (st : AnalogDelayAudioProcessor σ K) :
    (parameterChanged E id v st).treeState = st.treeState := by
  simp only [parameterChanged]
  split_ifs <;> rfl

theorem parameterChanged_delays_equal (E : DelayEngineOps σ K) (id : String) (v : K)
    (st : AnalogDelayAudioProcessor σ K)
    (h : st.params.leftDelay_mSec = st.params.rightDelay_mSec) :
    (parameterChanged E id v st).params.leftDelay_mSec
      = (parameterChanged E id v st).params.rightDelay_mSec := by
  simp only [parameterChanged]
  split_ifs <;> first | rfl | exact h

theorem prepareToPlay_delays_equal [LinearOrderedField K] (E : DelayEngineOps σ K)
    (sampleRate : K) (samplesPerBlock : Int) (st st1 : AnalogDelayAudioProcessor σ K)
    (h : prepareToPlay E sampleRate samplesPerBlock st = some st1) :
    st1.params.leftDelay_mSec = st1.params.rightDelay_mSec ∧ st1.treeState = st.treeState := by
  obtain ⟨dt, fb, wet, dry, hdt, hfb, hwet, hdry⟩ := prepareToPlay_lookups E _ _ _ _ h
  rw [prepareToPlay_of_lookups E _ _ _ dt fb wet dry hdt hfb hwet hdry] at h
  cases h
  exact ⟨rfl, rfl⟩

theorem applyEvents_delays_equal [LinearOrderedField K] (E : DelayEngineOps σ K)
    (evs : List (ControlEvent K)) :
    ∀ (st st2 : AnalogDelayAudioProcessor σ K),
      st.params.leftDelay_mSec = st.params.rightDelay_mSec →
      applyEvents E evs st = some st2 →
      st2.params.leftDelay_mSec = st2.params.rightDelay_mSec := by
  induction evs with
  | nil =>
    intro st st2 h hrun
    simp only [applyEvents, Option.some.injEq] at hrun
    exact hrun ▸ h
  | cons ev evs ih =>
    intro st st2 h hrun
    simp only [applyEvents, Option.bind_eq_some] at hrun
    obtain ⟨st1, h1, h2⟩ := hrun
    refine ih st1 st2 ?_ h2
    cases ev with
    | parameterChanged id v =>
      simp only [applyEvent, Option.some.injEq] at h1
      exact h1 ▸ parameterChanged_delays_equal E id v st h
    | prepareToPlay sr n => exact (prepareToPlay_delays_equal E sr n st st1 h1).1

theorem applyEvents_total [LinearOrderedField K] (E : DelayEngineOps σ K)
    (evs : List (ControlEvent K)) :
    ∀ (st : AnalogDelayAudioProcessor σ K) (e0 : σ) (p0 : AudioDelayParameters K),
      st.treeState = (construct e0 p0).treeState → ∃ st2, applyEvents E evs st = some st2 := by
  induction evs with
  | nil => exact fun st _ _ _ => ⟨st, rfl⟩
  | cons ev evs ih =>
    intro st e0 p0 ht
    cases ev with
    | parameterChanged id v =>
      simp only [applyEvents, applyEvent, Option.some_bind]
      exact ih _ e0 p0 ((parameterChanged_treeState E id v st).trans ht)
    | prepareToPlay sr n =>
      obtain ⟨hdt, hfb, hwet, hdry⟩ := construct_lookups e0 p0
      rw [← ht] at hdt hfb hwet hdry
      simp only [applyEvents, applyEvent,
        prepareToPlay_of_lookups E sr n st _ _ _ _ hdt hfb hwet hdry, Option.some_bind]
      exact ih _ e0 p0 ht

/-- C10: once `prepareToPlay` has run, `params.leftDelay_mSec = params.rightDelay_mSec`, and
the equality holds after every later sequence of `parameterChanged` (any id, any value) and
`prepareToPlay` calls.  On a constructed processor every such sequence runs to its end. -/
theorem delays_equal_in_reachable_states [LinearOrderedField K] (E : DelayEngineOps σ K)
    (sampleRate : K) (samplesPerBlock : Int) (evs : List (ControlEvent K)) :
    (∀ st0 st1 st2 : AnalogDelayAudioProcessor σ K,
        prepareToPlay E sampleRate samplesPerBlock st0 = some st1 →
        applyEvents E evs st1 = some st2 →
        st1.params.leftDelay_mSec = st1.params.rightDelay_mSec
        ∧ st2.params.leftDelay_mSec = st2.params.rightDelay_mSec)
    ∧ ∀ (e0 : σ) (p0 : AudioDelayParameters K),
        ∃ st2, applyEvents E (ControlEvent.prepareToPlay sampleRate samplesPerBlock :: evs)
            (construct e0 p0) = some st2
          ∧ st2.params.leftDelay_mSec = st2.params.rightDelay_mSec := by
  refine ⟨?_, ?_⟩
  · intro st0 st1 st2 h1 h2
    have h := (prepareToPlay_delays_equal E _ _ st0 st1 h1).1
    exact ⟨h, applyEvents_delays_equal E evs st1 st2 h h2⟩
  · intro e0 p0
    obtain ⟨st2, h2⟩ := applyEvents_total E
      (ControlEvent.prepareToPlay sampleRate samplesPerBlock :: evs) (construct e0 p0) e0 p0 rfl
    refine ⟨st2, h2, ?_⟩
    simp only [applyEvents, Option.bind_eq_some] at h2
    obtain ⟨st1, h1, h3⟩ := h2
    have h := (prepareToPlay_delays_equal E sampleRate samplesPerBlock _ st1 h1).1
    exact applyEvents_delays_equal E evs st1 st2 h h3

/-- Witness for C10: a new processor with unequal initial delay fields, prepared at 48 kHz and
then sent a feedback change. -/
theorem delays_equal_in_reachable_states_witness :
    (⟨250, 250, 30, -3, -3⟩ : AudioDelayParameters ℚ).leftDelay_mSec
        = (⟨250, 250, 30, -3, -3⟩ : AudioDelayParameters ℚ).rightDelay_mSec
    ∧ (⟨250, 250, 40, -3, -3⟩ : AudioDelayParameters ℚ).leftDelay_mSec
        = (⟨250, 250, 40, -3, -3⟩ : AudioDelayParameters ℚ).rightDelay_mSec :=
  (delays_equal_in_reachable_states (recorder ℚ) 48000 512
      [ControlEvent.parameterChanged "delayFeedbackID" 40]).1
    (construct [] ⟨1, 2, 3, 4, 5⟩)
    { construct [] ⟨1, 2, 3, 4, 5⟩ with
      params := ⟨250, 250, 30, -3, -3⟩
      analogDelay := [EngineCall.reset 48000, EngineCall.createDelayBuffers 48000 2000,
        EngineCall.setParameters ⟨250, 250, 30, -3, -3⟩] }
    { construct [] ⟨1, 2, 3, 4, 5⟩ with
      params := ⟨250, 250, 40, -3, -3⟩
      analogDelay := [EngineCall.reset 48000, EngineCall.createDelayBuffers 48000 2000,
        EngineCall.setParameters ⟨250, 250, 30, -3, -3⟩,
        EngineCall.setParameters ⟨250, 250, 40, -3, -3⟩] }
    (prepareToPlay_of_lookups (recorder ℚ) 48000 512 (construct [] ⟨1, 2, 3, 4, 5⟩) 250 30 (-3)
      (-3) (construct_lookups _ _).1 (construct_lookups _ _).2.1 (construct_lookups _ _).2.2.1
      (construct_lookups _ _).2.2.2)
    (by simp [applyEvents, applyEvent, parameterChanged, recorder]; exact ⟨rfl, rfl⟩)

/-! ### Buffer capacity -/

/-- C5: for a positive sample rate, every `createDelayBuffers (sr, ms)` call that
`prepareToPlay` makes has `sr = sampleRate` and `ms = 2000`, and every delay time admitted by
the range declared for `delayTimeID` asks for at most
`C = ceil (sampleRate * 2000 / 1000)` samples: `delayMs * sampleRate / 1000 ≤ C`. -/
theorem admitted_delay_within_capacity [LinearOrderedField K] [FloorRing K]
    (sampleRate : K) (hsr : 0 < sampleRate) (samplesPerBlock : Int)
    (rt rt1 : AnalogDelayAudioProcessor (List (EngineCall K)) K)
    (hrun : prepareToPlay (recorder K) sampleRate samplesPerBlock rt = some rt1)
    (sr ms : K)
    (hcall : EngineCall.createDelayBuffers sr ms ∈ rt1.analogDelay.drop rt.analogDelay.length)
    (r : NormalisableRange K) (hr : declaredRange "delayTimeID" = some r)
    (delayMs : K) (hd : r.admits delayMs) :
    sr = sampleRate ∧ ms = 2000
    ∧ delayMs * sampleRate / 1000 ≤ ((bufferCapacity sr ms : ℤ) : K) := by
  obtain ⟨dt, fb, wet, dry, hdt, hfb, hwet, hdry⟩ := prepareToPlay_lookups _ _ _ _ _ hrun
  rw [prepareToPlay_of_lookups _ _ _ _ dt fb wet dry hdt hfb hwet hdry] at hrun
  cases hrun
  simp only [recorder, List.append_assoc, List.drop_left, List.singleton_append,
    List.mem_cons, List.mem_singleton, List.not_mem_nil, or_false, reduceCtorEq,
    EngineCall.createDelayBuffers.injEq, false_or, List.cons_append, List.nil_append] at hcall
  obtain ⟨rfl, rfl⟩ := hcall
  rw [declaredRange_delayTime] at hr
  cases hr
  obtain ⟨-, h2⟩ := NormalisableRange.admits_bounds _ (by norm_num) delayMs hd
  refine ⟨rfl, rfl, ?_⟩
  have h3 : delayMs * sr / 1000 ≤ sr * 2000 / 1000 := by
    have : delayMs * sr ≤ 2000 * sr := mul_le_mul_of_nonneg_right h2 hsr.le
    linarith
  exact h3.trans (Int.le_ceil _)

/-- Witness for C5: 48 kHz and the default delay time of 250 ms. -/
theorem admitted_delay_within_capacity_witness :
    (48000 : ℚ) = 48000 ∧ (2000 : ℚ) = 2000
    ∧ (250 : ℚ) * 48000 / 1000 ≤ ((bufferCapacity (48000 : ℚ) 2000 : ℤ) : ℚ) :=
  admitted_delay_within_capacity (48000 : ℚ) (by norm_num) 512
    (construct [] (defaultParams ℚ))
    { construct [] (defaultParams ℚ) with
      params := ⟨250, 250, 30, -3, -3⟩
      analogDelay := [EngineCall.reset 48000, EngineCall.createDelayBuffers 48000 2000,
        EngineCall.setParameters ⟨250, 250, 30, -3, -3⟩] }
    (prepareToPlay_of_lookups (recorder ℚ) 48000 512 (construct [] (defaultParams ℚ)) 250 30
      (-3) (-3) (construct_lookups _ _).1 (construct_lookups _ _).2.1
      (construct_lookups _ _).2.2.1 (construct_lookups _ _).2.2.2)
    48000 2000 (by simp [construct])
    ⟨0, 2000, 1, 1, false⟩ declaredRange_delayTime 250
    (by
      have hfl : ⌊(2 : ℚ)⁻¹⌋ = 0 := by
        rw [Int.floor_eq_iff]; norm_num
      simp [NormalisableRange.admits, NormalisableRange.snapToLegalValue, hfl]
      norm_num)

/-! ### processBlock -/

theorem foldl_frames_acc [Zero K] (E : DelayEngineOps σ K) (xs : List (K × K)) :
    ∀ (e : σ) (acc : List (K × K)),
      xs.foldl
        (fun acc x => ((E.processAudioFrame acc.1 x (0, 0) 2 2).1,
          acc.2 ++ [(E.processAudioFrame acc.1 x (0, 0) 2 2).2]))
        (e, acc)
      = ((foldFrames E e xs).1, acc ++ (foldFrames E e xs).2) := by
  induction xs with
  | nil => intro e acc; simp [foldFrames]
  | cons x xs ih =>
    intro e acc
    simp only [foldFrames, List.foldl_cons, List.nil_append]
    rw [ih, ih _ [_]]
    simp [foldFrames]

theorem foldFrames_cons [Zero K] (E : DelayEngineOps σ K) (e : σ) (x : K × K)
    (xs : List (K × K)) :
    foldFrames E e (x :: xs)
      = ((foldFrames E (E.processAudioFrame e x (0, 0) 2 2).1 xs).1,
          (E.processAudioFrame e x (0, 0) 2 2).2
            :: (foldFrames E (E.processAudioFrame e x (0, 0) 2 2).1 xs).2) := by
  simp only [foldFrames, List.foldl_cons, List.nil_append]
  rw [foldl_frames_acc]
  simp [foldFrames]

theorem getElem?_append_cons_at {α : Type} (l r : List α) (a : α) (s : Nat)
    (h : l.length = s) : (l ++ a :: r)[s]? = some a := by
  subst h
  rw [List.getElem?_append_right (le_refl _)]
  simp

theorem set_append_cons_at {α : Type} (l r : List α) (a b : α) (s : Nat)
    (h : l.length = s) : (l ++ a :: r).set s b = l ++ b :: r := by
  subst h; simp

theorem length_append_cons_at {α : Type} (l r : List α) (a : α) (s : Nat)
    (h : l.length = s) : s < (l ++ a :: r).length := by
  subst h; simp

/-- The sample loop, started at index `s` on a buffer whose first `s` samples have been
overwritten already, folds the step over the samples still to come. -/
theorem sampleLoop_eq_foldFrames [LinearOrderedField K] (E : DelayEngineOps σ K) (n : Nat)
    (xs : List (K × K)) :
    ∀ (s : Nat) (doneL doneR : List K) (e : σ), doneL.length = s → doneR.length = s →
      sampleLoop E xs.length s e ⟨n, [doneL ++ xs.map Prod.fst, doneR ++ xs.map Prod.snd]⟩
        = some ((foldFrames E e xs).1,
            ⟨n, [doneL ++ (foldFrames E e xs).2.map Prod.fst,
                 doneR ++ (foldFrames E e xs).2.map Prod.snd]⟩) := by
  induction xs with
  | nil => intro s doneL doneR e _ _; simp [sampleLoop, foldFrames]
  | cons x xs ih =>
    intro s doneL doneR e hL hR
    have hstep := ih (s + 1) (doneL ++ [(E.processAudioFrame e x (0, 0) 2 2).2.1])
      (doneR ++ [(E.processAudioFrame e x (0, 0) 2 2).2.2])
      (E.processAudioFrame e x (0, 0) 2 2).1 (by simp [hL]) (by simp [hR])
    simp only [List.append_assoc, List.singleton_append] at hstep
    rw [foldFrames_cons]
    simp only [List.length_cons, sampleLoop, AudioBuffer.getReadPointer, AudioBuffer.store,
      List.map_cons, List.getElem?_cons_zero, List.getElem?_cons_succ, Option.bind_eq_bind,
      Option.some_bind, getElem?_append_cons_at _ _ _ s hL, getElem?_append_cons_at _ _ _ s hR,
      length_append_cons_at _ _ _ s hL, length_append_cons_at _ _ _ s hR, if_true,
      set_append_cons_at _ _ _ _ s hL, set_append_cons_at _ _ _ _ s hR, List.set_cons_zero,
      List.set_cons_succ]
    exact hstep

theorem foldFrames_recorder [Zero K] (xs : List (K × K)) :
    ∀ log : List (EngineCall K),
      foldFrames (recorder K) log xs
        = (log ++ xs.map (fun x => EngineCall.processAudioFrame x (0, 0) 2 2),
            xs.map (fun _ => (0, 0))) := by
  induction xs with
  | nil => intro log; simp [foldFrames]
  | cons x xs ih =>
    intro log
    rw [foldFrames_cons, ih]
    simp [recorder]

/-- On a two-channel buffer, with nothing to clear, `processBlock` is the fold of the frame
step over the samples the buffer held on entry. -/
theorem processBlock_stereo [LinearOrderedField K] (E : DelayEngineOps σ K)
    (st : AnalogDelayAudioProcessor σ K) (L R : List K) (hLR : L.length = R.length)
    (hst : getTotalNumOutputChannels st ≤ getTotalNumInputChannels st) :
    processBlock E st ⟨L.length, [L, R]⟩
      = some ({ st with analogDelay := (foldFrames E st.analogDelay (L.zip R)).1 },
          ⟨L.length, [(foldFrames E st.analogDelay (L.zip R)).2.map Prod.fst,
                       (foldFrames E st.analogDelay (L.zip R)).2.map Prod.snd]⟩) := by
  have hlen : (L.zip R).length = L.length := by simp [hLR]
  have hL : (L.zip R).map Prod.fst = L := List.map_fst_zip _ _ (by omega)
  have hR : (L.zip R).map Prod.snd = R := List.map_snd_zip _ _ (by omega)
  have key : sampleLoop E L.length 0 st.analogDelay ⟨L.length, [L, R]⟩
      = some ((foldFrames E st.analogDelay (L.zip R)).1,
          ⟨L.length, [(foldFrames E st.analogDelay (L.zip R)).2.map Prod.fst,
                       (foldFrames E st.analogDelay (L.zip R)).2.map Prod.snd]⟩) := by
    have h := sampleLoop_eq_foldFrames E L.length (L.zip R) 0 [] [] st.analogDelay rfl rfl
    rw [hlen, hL, hR] at h
    simpa using h
  simp only [processBlock, Nat.sub_eq_zero_of_le hst, clearLoop, AudioBuffer.getNumSamples,
    Option.bind_eq_bind, Option.some_bind, key, Option.pure_def]

/-- C1: on a stereo buffer of `n` samples (and a layout with no output channel beyond the
input channels, so that nothing is cleared) `processBlock` succeeds, and the final engine
state and buffer are the left fold of the per-frame step over the sample sequence
`(L[0], R[0]), ..., (L[n-1], R[n-1])` as the buffer held it on entry; the two outputs of
frame `s` are stored at `L[s]` and `R[s]`.  On the recording engine the calls made are exactly
the `n` calls `processAudioFrame ((L[s], R[s]), (0, 0), 2, 2)` in increasing order of `s`. -/
theorem processBlock_eq_foldFrames [LinearOrderedField K] (E : DelayEngineOps σ K)
    (st : AnalogDelayAudioProcessor σ K)
    (rt : AnalogDelayAudioProcessor (List (EngineCall K)) K) (L R : List K)
    (hLR : L.length = R.length)
    (hst : getTotalNumOutputChannels st ≤ getTotalNumInputChannels st)
    (hrt : getTotalNumOutputChannels rt ≤ getTotalNumInputChannels rt) :
    processBlock E st ⟨L.length, [L, R]⟩
      = some ({ st with analogDelay := (foldFrames E st.analogDelay (L.zip R)).1 },
          ⟨L.length, [(foldFrames E st.analogDelay (L.zip R)).2.map Prod.fst,
                       (foldFrames E st.analogDelay (L.zip R)).2.map Prod.snd]⟩)
    ∧ (processBlock (recorder K) rt ⟨L.length, [L, R]⟩).map (fun r => r.1.analogDelay)
      = some (rt.analogDelay
          ++ (L.zip R).map (fun x => EngineCall.processAudioFrame x (0, 0) 2 2)) := by
  refine ⟨processBlock_stereo E st L R hLR hst, ?_⟩
  rw [processBlock_stereo (recorder K) rt L R hLR hrt, Option.map_some', foldFrames_recorder]

/-- Witness for C1: a stereo buffer of two samples on the recording engine. -/
theorem processBlock_eq_foldFrames_witness :
    (processBlock (recorder ℚ) (construct [] (defaultParams ℚ))
        ⟨[(1 : ℚ), 2].length, [[1, 2], [3, 4]]⟩).map (fun r => r.1.analogDelay)
      = some ((construct ([] : List (EngineCall ℚ)) (defaultParams ℚ)).analogDelay
          ++ ([(1 : ℚ), 2].zip [3, 4]).map
              (fun x => EngineCall.processAudioFrame x (0, 0) 2 2)) :=
  (processBlock_eq_foldFrames (recorder ℚ) (construct [] (defaultParams ℚ))
    (construct [] (defaultParams ℚ)) [1, 2] [3, 4] rfl (by decide) (by decide)).2

/-- C9 (failing input): the mono layout is accepted by `isBusesLayoutSupported`, and on a
buffer of that layout (one channel, one sample) `processBlock` reaches for channel 1, which
the buffer does not have. -/
theorem processBlock_mono_out_of_bounds :
    isBusesLayoutSupported ⟨false, false⟩ ⟨AudioChannelSet.mono, AudioChannelSet.mono⟩ = true
    ∧ (⟨1, [[0]]⟩ : AudioBuffer ℚ).getNumChannels = AudioChannelSet.mono.size
    ∧ (⟨1, [[0]]⟩ : AudioBuffer ℚ).getReadPointer 1 = none
    ∧ processBlock (recorder ℚ)
        { construct [] (defaultParams ℚ) with
          layouts := ⟨AudioChannelSet.mono, AudioChannelSet.mono⟩ }
        ⟨1, [[0]]⟩ = none := by
  refine ⟨by decide, rfl, rfl, ?_⟩
  simp [processBlock, getTotalNumInputChannels, getTotalNumOutputChannels, clearLoop,
    sampleLoop, AudioBuffer.getNumSamples, AudioBuffer.getReadPointer]

end ProcessorTheorems

/-! ### The delay buffer -/

section EngineTheorems

variable {K : Type} [LinearOrderedField K] [FloorRing K]

theorem DelayBuffer.wrap_sub_natCast (C w d : Nat) (hw : w < C) (hd : d ≤ C) :
    DelayBuffer.wrap C ((w : K) - (d : K)) = (((w + C - d) % C : Nat) : K) := by
  have hC : (0 : K) < (C : K) := by exact_mod_cast (by omega : 0 < C)
  unfold DelayBuffer.wrap
  by_cases h : d ≤ w
  · have hfl : ⌊((w : K) - (d : K)) / (C : K)⌋ = 0 := by
      rw [Int.floor_eq_iff]
      have h1 : (d : K) ≤ (w : K) := by exact_mod_cast h
      have h2 : (w : K) < (C : K) := by exact_mod_cast hw
      have h3 : (0 : K) ≤ (d : K) := by exact_mod_cast Nat.zero_le d
      constructor
      · simp only [Int.cast_zero]
        exact div_nonneg (by linarith) hC.le
      · simp only [Int.cast_zero, zero_add]
        rw [div_lt_one hC]
        linarith
    have hmod : (w + C - d) % C = w - d := by
      have : w + C - d = w - d + C := by omega
      rw [this, Nat.add_mod_right, Nat.mod_eq_of_lt (by omega)]
    rw [hfl, hmod, Nat.cast_sub h]
    simp
  · have h' : w < d := by omega
    have hfl : ⌊((w : K) - (d : K)) / (C : K)⌋ = -1 := by
      rw [Int.floor_eq_iff]
      have h1 : (w : K) < (d : K) := by exact_mod_cast h'
      have h2 : (d : K) ≤ (C : K) := by exact_mod_cast hd
      have h3 : (0 : K) ≤ (w : K) := by exact_mod_cast Nat.zero_le w
      constructor
      · rw [le_div_iff₀ hC]
        simp only [Int.reduceNeg, Int.cast_neg, Int.cast_one, neg_mul, one_mul]
        linarith
      · simp only [Int.reduceNeg, Int.cast_neg, Int.cast_one, neg_add_cancel]
        exact div_neg_of_neg_of_pos (by linarith) hC
    have hmod : (w + C - d) % C = w + C - d := Nat.mod_eq_of_lt (by omega)
    rw [hfl, hmod, Nat.cast_sub (by omega), Nat.cast_add]
    simp only [Int.reduceNeg, Int.cast_neg, Int.cast_one, mul_neg, mul_one, sub_neg_eq_add]
    ring

theorem DelayBuffer.interpolate_natCast (b : DelayBuffer K) (i : Nat) :
    b.interpolate (i : K) = b.storage.getD i 0 := by
  simp [DelayBuffer.interpolate]

/-- A read at a whole number of samples `d ≤ C` returns the slot `d` places behind the
cursor, counted round the buffer. -/
theorem DelayBuffer.readDelayed_natCast (b : DelayBuffer K) (d : Nat)
    (hw : b.writeIndex < b.capacity) (hd : d ≤ b.capacity) :
    b.readDelayed (d : K) = b.storage.getD ((b.writeIndex + b.capacity - d) % b.capacity) 0 := by
  unfold DelayBuffer.readDelayed
  rw [DelayBuffer.wrap_sub_natCast _ _ _ hw hd, DelayBuffer.interpolate_natCast]

theorem getD_set_self {α : Type} (l : List α) (i : Nat) (a z : α) (h : i < l.length) :
    (l.set i a).getD i z = a := by
  simp [List.getD_eq_getElem?_getD, List.getElem?_set, h]

theorem getD_set_other {α : Type} (l : List α) (i j : Nat) (a z : α) (h : i ≠ j) :
    (l.set i a).getD j z = l.getD j z := by
  simp [List.getD_eq_getElem?_getD, List.getElem?_set, h]

theorem mod_ne_of_lt_of_lt_add (C s t : Nat) (hst : s < t) (ht : t < s + C) :
    s % C ≠ t % C := by
  intro heq
  have h0 : (t - s) % C = 0 := Nat.sub_mod_eq_zero_of_mod_eq heq.symm
  have hdvd : C ∣ t - s := Nat.dvd_of_mod_eq_zero h0
  have := Nat.le_of_dvd (by omega) hdvd
  omega

omit [FloorRing K] in
/-- A zero-filled buffer holds the first zero samples of any signal. -/
theorem DelayBuffer.holdsSignal_allocate (sig : Nat → K) (C : Nat) :
    (DelayBuffer.allocate C : DelayBuffer K).HoldsSignal sig C 0 where
  capacity_eq := by simp [DelayBuffer.allocate, DelayBuffer.capacity]
  cursor := by simp [DelayBuffer.allocate]
  written := fun s hs _ => absurd hs (Nat.not_lt_zero s)
  fresh := fun i _ hi => by
    simp [DelayBuffer.allocate, List.getD_eq_getElem?_getD, List.getElem?_replicate, hi]

/-- Reading `d` samples back, `1 ≤ d < C`, returns the sample written `d` steps ago, or zero
when fewer than `d` samples have been written. -/
theorem DelayBuffer.HoldsSignal.readDelayed_eq {sig : Nat → K} {C t : Nat} {b : DelayBuffer K}
    (h : b.HoldsSignal sig C t) (d : Nat) (hd1 : 1 ≤ d) (hdC : d < C) :
    b.readDelayed (d : K) = if d ≤ t then sig (t - d) else 0 := by
  have hC : 0 < C := by omega
  have hw : b.writeIndex < b.capacity := by
    rw [h.cursor, h.capacity_eq]; exact Nat.mod_lt _ hC
  rw [DelayBuffer.readDelayed_natCast b d hw (by rw [h.capacity_eq]; omega), h.cursor,
    h.capacity_eq]
  by_cases hdt : d ≤ t
  · have hidx : (t % C + C - d) % C = (t - d) % C := by
      have h1 : t % C + C - d = t % C + (C - d) := by omega
      have h2 : t + (C - d) = t - d + C := by omega
      rw [h1, Nat.mod_add_mod, h2, Nat.add_mod_right]
    rw [hidx, if_pos hdt]
    exact h.written (t - d) (by omega) (by omega)
  · have htC : t % C = t := Nat.mod_eq_of_lt (by omega)
    have hidx : (t % C + C - d) % C = t + C - d := by
      rw [htC]; exact Nat.mod_eq_of_lt (by omega)
    rw [hidx, if_neg hdt]
    exact h.fresh (t + C - d) (by omega) (by omega)

omit [FloorRing K] in
/-- Writing the next sample of the signal advances the buffer by one step. -/
theorem DelayBuffer.HoldsSignal.write_next {sig : Nat → K} {C t : Nat} {b : DelayBuffer K}
    (h : b.HoldsSignal sig C t) (hC : 0 < C) (v : K) (hv : v = sig t) :
    (b.write v).HoldsSignal sig C (t + 1) where
  capacity_eq := by
    simpa [DelayBuffer.write, DelayBuffer.capacity] using h.capacity_eq
  cursor := by
    simp only [DelayBuffer.write, h.cursor, h.capacity_eq, Nat.mod_add_mod]
  written := by
    intro s hs hsC
    have hlen : t % C < b.storage.length := by
      have := h.capacity_eq
      unfold DelayBuffer.capacity at this
      rw [this]; exact Nat.mod_lt _ hC
    simp only [DelayBuffer.write, h.cursor]
    by_cases hst : s = t
    · subst hst
      rw [getD_set_self _ _ _ _ hlen, hv]
    · have hne : t % C ≠ s % C := fun heq =>
        mod_ne_of_lt_of_lt_add C s t (by omega) (by omega) heq.symm
      rw [getD_set_other _ _ _ _ _ hne]
      exact h.written s (by omega) (by omega)
  fresh := by
    intro i hti hiC
    have hne : t % C ≠ i := by
      rw [Nat.mod_eq_of_lt (by omega)]; omega
    simp only [DelayBuffer.write, h.cursor]
    rw [getD_set_other _ _ _ _ _ hne]
    exact h.fresh i (by omega) hiC

theorem clampToRange_of_mem {K : Type} [LinearOrder K] (lo hi v : K) (h1 : lo ≤ v)
    (h2 : v ≤ hi) : clampToRange lo hi v = v := by
  unfold clampToRange
  rw [min_eq_right h2, max_eq_right h1]

theorem echoTrain_shift (d t : Nat) (hd1 : 1 ≤ d) (hdt : d ≤ t) :
    (t - d) % d = t % d ∧ t / d = (t - d) / d + 1 := by
  have ht : t = t - d + d := by omega
  constructor
  · conv_rhs => rw [ht, Nat.add_mod_right]
  · conv_lhs => rw [ht, Nat.add_div_right _ (by omega : 0 < d)]

/-- One step of the channel algorithm on the impulse: at time `t` the output is the closed-form
impulse response and the sample written is the next one of the echo train. -/
theorem DelayEngine.processChannel_impulse (N : EngineNumerics K) (sampleRate : K)
    (params : AudioDelayParameters K) (delayMs : K) (buf : DelayBuffer K) (C d t : Nat)
    (hd1 : 1 ≤ d) (hdC : d < C) (hdelay : delayMs * sampleRate / 1000 = (d : K))
    (h : buf.HoldsSignal (echoTrain (params.feedback_Pct / 100) d) C t) :
    (DelayEngine.processChannel N sampleRate params delayMs buf (if t = 0 then 1 else 0)).2
        = impulseResponse (N.dbToGain params.dryLevel_dB) (N.dbToGain params.wetLevel_dB)
            (params.feedback_Pct / 100) d t
    ∧ (DelayEngine.processChannel N sampleRate params delayMs buf
        (if t = 0 then 1 else 0)).1.HoldsSignal (echoTrain (params.feedback_Pct / 100) d) C
          (t + 1) := by
  have hclamp : clampToRange 0 ((buf.capacity : K) - 1) (delayMs * sampleRate / 1000)
      = (d : K) := by
    rw [hdelay, h.capacity_eq]
    apply clampToRange_of_mem
    · exact_mod_cast Nat.zero_le d
    · have : (d : K) + 1 ≤ (C : K) := by exact_mod_cast hdC
      linarith
  have hread := h.readDelayed_eq d hd1 hdC
  simp only [DelayEngine.processChannel, hclamp, hread]
  by_cases ht0 : t = 0
  · subst ht0
    have hd0 : ¬ d ≤ 0 := by omega
    refine ⟨by simp [impulseResponse, hd0], ?_⟩
    apply h.write_next (by omega)
    simp [echoTrain, hd0]
  · by_cases hdt : d ≤ t
    · obtain ⟨hmod, hdiv⟩ := echoTrain_shift d t hd1 hdt
      refine ⟨?_, ?_⟩
      · simp only [if_neg ht0, if_pos hdt, impulseResponse, echoTrain, hmod, hdiv]
        split_ifs <;> simp
      · apply h.write_next (by omega)
        simp only [if_neg ht0, if_pos hdt, echoTrain, hmod, hdiv]
        split_ifs
        · rw [pow_succ]; ring
        · simp
    · have hmod : t % d ≠ 0 := by
        rw [Nat.mod_eq_of_lt (by omega)]; exact ht0
      refine ⟨by simp [impulseResponse, ht0, hdt, hmod], ?_⟩
      apply h.write_next (by omega)
      simp [echoTrain, ht0, hdt, hmod]

/-! ### Runs of the engine -/

theorem DelayEngine.foldFrames_ops_cons (N : EngineNumerics K) (e : DelayEngine K) (x : K × K)
    (xs : List (K × K)) :
    (foldFrames (DelayEngine.ops N) e (x :: xs)).2
      = (e.processFrame N x).2 :: (foldFrames (DelayEngine.ops N) (e.processFrame N x).1 xs).2 := by
  rw [foldFrames_cons]
  rfl

/-- The left outputs of a run on an impulse that starts at time `t`. -/
theorem DelayEngine.foldFrames_left_impulse (N : EngineNumerics K) (sampleRate : K)
    (params : AudioDelayParameters K) (C d : Nat) (hd1 : 1 ≤ d) (hdC : d < C)
    (hdelay : params.leftDelay_mSec * sampleRate / 1000 = (d : K)) (frames : List (K × K)) :
    ∀ (t : Nat) (e : DelayEngine K), e.sampleRate = sampleRate → e.params = params →
      e.left.HoldsSignal (echoTrain (params.feedback_Pct / 100) d) C t →
      frames.map Prod.fst
        = (List.range' t frames.length).map (fun s => if s = 0 then (1 : K) else 0) →
      (foldFrames (DelayEngine.ops N) e frames).2.map Prod.fst
        = (List.range' t frames.length).map
            (impulseResponse (N.dbToGain params.dryLevel_dB) (N.dbToGain params.wetLevel_dB)
              (params.feedback_Pct / 100) d) := by
  induction frames with
  | nil => intro t e _ _ _ _; simp [foldFrames]
  | cons x xs ih =>
    intro t e hsr hp hbuf hin
    simp only [List.length_cons, List.range'_succ, List.map_cons, List.cons.injEq] at hin
    obtain ⟨hx, hxs⟩ := hin
    have hstep := DelayEngine.processChannel_impulse N sampleRate params params.leftDelay_mSec
      e.left C d t hd1 hdC hdelay hbuf
    rw [DelayEngine.foldFrames_ops_cons]
    simp only [List.length_cons, List.range'_succ, List.map_cons, List.cons.injEq]
    refine ⟨?_, ih (t + 1) (e.processFrame N x).1 hsr hp ?_ hxs⟩
    · simp only [DelayEngine.processFrame, hsr, hp, hx]
      exact hstep.1
    · simp only [DelayEngine.processFrame, hsr, hp, hx]
      exact hstep.2

/-- The right outputs of a run on an impulse that starts at time `t`. -/
theorem DelayEngine.foldFrames_right_impulse (N : EngineNumerics K) (sampleRate : K)
    (params : AudioDelayParameters K) (C d : Nat) (hd1 : 1 ≤ d) (hdC : d < C)
    (hdelay : params.rightDelay_mSec * sampleRate / 1000 = (d : K)) (frames : List (K × K)) :
    ∀ (t : Nat) (e : DelayEngine K), e.sampleRate = sampleRate → e.params = params →
      e.right.HoldsSignal (echoTrain (params.feedback_Pct / 100) d) C t →
      frames.map Prod.snd
        = (List.range' t frames.length).map (fun s => if s = 0 then (1 : K) else 0) →
      (foldFrames (DelayEngine.ops N) e frames).2.map Prod.snd
        = (List.range' t frames.length).map
            (impulseResponse (N.dbToGain params.dryLevel_dB) (N.dbToGain params.wetLevel_dB)
              (params.feedback_Pct / 100) d) := by
  induction frames with
  | nil => intro t e _ _ _ _; simp [foldFrames]
  | cons x xs ih =>
    intro t e hsr hp hbuf hin
    simp only [List.length_cons, List.range'_succ, List.map_cons, List.cons.injEq] at hin
    obtain ⟨hx, hxs⟩ := hin
    have hstep := DelayEngine.processChannel_impulse N sampleRate params params.rightDelay_mSec
      e.right C d t hd1 hdC hdelay hbuf
    rw [DelayEngine.foldFrames_ops_cons]
    simp only [List.length_cons, List.range'_succ, List.map_cons, List.cons.injEq]
    refine ⟨?_, ih (t + 1) (e.processFrame N x).1 hsr hp ?_ hxs⟩
    · simp only [DelayEngine.processFrame, hsr, hp, hx]
      exact hstep.1
    · simp only [DelayEngine.processFrame, hsr, hp, hx]
      exact hstep.2

/-- The closed form `impulseResponse`, listed over the first `n` samples, is the impulse
response as a property of the list. -/
theorem isImpulseResponse_map_range {F : Type} [Field F] (g w φ : F) (d n : Nat)
    (hd1 : 1 ≤ d) :
    IsImpulseResponse g w φ d ((List.range n).map (impulseResponse g w φ d)) := by
  have hget : ∀ t, t < n →
      ((List.range n).map (impulseResponse g w φ d))[t]? = some (impulseResponse g w φ d t) := by
    intro t ht
    simp [List.getElem?_map, List.getElem?_range ht]
  refine ⟨?_, ?_, ?_⟩
  · intro h0
    rw [hget 0 (by simpa using h0)]
    simp [impulseResponse]
  · intro k hk hlt
    rw [hget (k * d) (by simpa using hlt)]
    have hne : k * d ≠ 0 := Nat.mul_ne_zero (by omega) (by omega)
    simp [impulseResponse, hne, Nat.mul_div_cancel k (by omega : 0 < d)]
  · intro t ht hnot
    rw [hget t (by simpa using ht)]
    have hne : t ≠ 0 := fun h0 => hnot 0 (by simp [h0])
    have hmod : t % d ≠ 0 := fun h0 =>
      hnot (t / d) (Nat.div_mul_cancel (Nat.dvd_of_mod_eq_zero h0)).symm
    simp [impulseResponse, hne, hmod]

/-- In an impulse response each echo after the first is `φ` times the one before it. -/
theorem IsImpulseResponse.echo_ratio {F : Type} [Field F] {g w φ : F} {d : Nat}
    {outs : List F} (h : IsImpulseResponse g w φ d outs) (k : Nat) (hk : 1 ≤ k)
    (hlen : (k + 1) * d < outs.length) :
    ∃ a, outs[k * d]? = some a ∧ outs[(k + 1) * d]? = some (φ * a) := by
  have hkd : k * d < outs.length := by
    have : k * d ≤ (k + 1) * d := Nat.mul_le_mul_right d (by omega)
    omega
  refine ⟨w * φ ^ (k - 1), h.2.1 k hk hkd, ?_⟩
  rw [h.2.1 (k + 1) (by omega) hlen]
  have hk' : k + 1 - 1 = (k - 1) + 1 := by omega
  rw [hk', pow_succ]
  congr 1
  ring

omit [LinearOrderedField K] [FloorRing K] in
theorem impulse_eq_map_range [Zero K] [One K] (n : Nat) :
    impulse K n = (List.range' 0 n).map (fun s => if s = 0 then (1 : K) else 0) := by
  simp [impulse, List.range_eq_range']

omit [LinearOrderedField K] [FloorRing K] in
theorem foldFrames_length [Zero K] {σ : Type} (E : DelayEngineOps σ K) (frames : List (K × K)) :
    ∀ e : σ, (foldFrames E e frames).2.length = frames.length := by
  induction frames with
  | nil => intro e; simp [foldFrames]
  | cons x xs ih => intro e; rw [foldFrames_cons]; simp [ih]

theorem isImpulseResponse_length_aux (N : EngineNumerics K) (e : DelayEngine K)
    (frames : List (K × K)) :
    ((foldFrames (DelayEngine.ops N) e frames).2.map Prod.fst).length = frames.length := by
  rw [List.length_map, foldFrames_length]

omit [FloorRing K] in
theorem isImpulseResponse_of_fold (N : EngineNumerics K) (e : DelayEngine K) (d : Nat)
    (hd1 : 1 ≤ d) (outs : List K) (n : Nat)
    (h : outs = (List.range' 0 n).map
      (impulseResponse (N.dbToGain e.params.dryLevel_dB) (N.dbToGain e.params.wetLevel_dB)
        (e.params.feedback_Pct / 100) d)) :
    IsImpulseResponse (N.dbToGain e.params.dryLevel_dB) (N.dbToGain e.params.wetLevel_dB)
      (e.params.feedback_Pct / 100) d outs := by
  rw [h, ← List.range_eq_range']
  exact isImpulseResponse_map_range _ _ _ d n hd1

/-- The engine as `prepareToPlay` leaves it at 48 kHz on a new processor. -/
theorem DelayEngine.prepared_48k (N : EngineNumerics K) (e0 : DelayEngine K) :
    (((e0.reset).configure 48000 2000).setParameters N ⟨250, 250, 30, -3, -3⟩)
      = ⟨48000, DelayBuffer.allocate 96000, DelayBuffer.allocate 96000,
          ⟨250, 250, 30, -3, -3⟩⟩ := by
  have hcap : (bufferCapacity (48000 : K) 2000).toNat = 96000 := by
    have h1 : (48000 : K) * 2000 / 1000 = ((96000 : ℤ) : K) := by norm_num
    unfold bufferCapacity
    rw [h1, Int.ceil_intCast]
    rfl
  have h250 : clampToRange (0 : K) 2000 250 = 250 :=
    clampToRange_of_mem _ _ _ (by norm_num) (by norm_num)
  have h3 : clampToRange (-60 : K) 12 (-3) = -3 :=
    clampToRange_of_mem _ _ _ (by norm_num) (by norm_num)
  have h30 : DelayEngine.clampFeedback N (30 : K) = 30 := by
    unfold DelayEngine.clampFeedback
    rw [if_neg (by norm_num), if_pos (by norm_num)]
  simp only [DelayEngine.setParameters, DelayEngine.configure, DelayEngine.reset, hcap, h250,
    h3, h30]

/-- At every finite level the gain `10 ^ (x / 20)` is positive: on the engine with levels in
`ℝ` no state has wet gain 0, which is why pass-through is stated with the level `-∞`. -/
theorem DelayEngine.wet_gain_pos_real (e : DelayEngine ℝ) :
    0 < (⟨fun x : ℝ => (10 : ℝ) ^ (x / 20), 99⟩ : EngineNumerics ℝ).dbToGain
      e.params.wetLevel_dB :=
  Real.rpow_pos_of_pos (by norm_num) _

/-- At finite levels the engine with levels in `Level K` is the engine with levels in `K`:
`ofEngine` commutes with the four calls. -/
theorem DelayEngineExt.ofEngine_ops (N : EngineNumerics K) (e : DelayEngine K) :
    (∀ x : K × K, (DelayEngineExt.ofEngine e).processFrame N x
        = (DelayEngineExt.ofEngine (e.processFrame N x).1, (e.processFrame N x).2))
    ∧ (∀ p, (DelayEngineExt.ofEngine e).setParameters N p
        = DelayEngineExt.ofEngine (e.setParameters N p))
    ∧ (∀ sampleRate maxDelayMs, (DelayEngineExt.ofEngine e).configure sampleRate maxDelayMs
        = DelayEngineExt.ofEngine (e.configure sampleRate maxDelayMs))
    ∧ (DelayEngineExt.ofEngine e).reset = DelayEngineExt.ofEngine e.reset :=
  ⟨fun _ => rfl, fun _ => rfl, fun _ _ => rfl, rfl⟩

theorem DelayEngineExt.foldFrames_ext_cons (N : EngineNumerics K) (e : DelayEngineExt K)
    (x : K × K) (xs : List (K × K)) :
    (foldFrames (DelayEngineExt.ops N) e (x :: xs)).2
      = (e.processFrame N x).2
        :: (foldFrames (DelayEngineExt.ops N) (e.processFrame N x).1 xs).2 := by
  rw [foldFrames_cons]
  rfl

/-- With wet gain 0 and dry gain 1 a run of frames returns its inputs. -/
theorem DelayEngineExt.foldFrames_unity_gain (N : EngineNumerics K) (wet dry : Level K)
    (hwet : N.levelGain wet = 0) (hdry : N.levelGain dry = 1) (frames : List (K × K)) :
    ∀ e : DelayEngineExt K, e.wetLevel_dB = wet → e.dryLevel_dB = dry →
      (foldFrames (DelayEngineExt.ops N) e frames).2 = frames := by
  induction frames with
  | nil => intro e _ _; simp [foldFrames]
  | cons x xs ih =>
    intro e hw hd
    rw [DelayEngineExt.foldFrames_ext_cons, ih (e.processFrame N x).1 hw hd]
    simp [DelayEngineExt.processFrame, DelayEngineExt.processChannel, hw, hd, hwet, hdry]

/-! ### Pass-through and impulse response -/

/-- C8: pass-through.  The engine of the specification, with a level of `-∞` among the levels
its state can hold (at finite levels it is the engine `DelayEngine`, first part).  When the
wet gain is 0, as it is at the wet level `-∞`, and the dry gain is 1, then whatever the
feedback, the delay times and the buffer contents, the output frame of every `processFrame`
call equals its input frame, the same holds along any sequence of frames, and `processBlock`
returns the stereo buffer with its samples unchanged. -/
theorem engine_pass_through (N : EngineNumerics K) (e : DelayEngineExt K)
    (hwet : N.levelGain e.wetLevel_dB = 0) (hdry : N.levelGain e.dryLevel_dB = 1) :
    (∀ (e0 : DelayEngine K) (x : K × K),
        (DelayEngineExt.ofEngine e0).processFrame N x
          = (DelayEngineExt.ofEngine (e0.processFrame N x).1, (e0.processFrame N x).2))
    ∧ N.levelGain Level.negInfinity = 0
    ∧ (∀ x : K × K, (e.processFrame N x).2 = x)
    ∧ (∀ frames : List (K × K), (foldFrames (DelayEngineExt.ops N) e frames).2 = frames)
    ∧ ∀ (st : AnalogDelayAudioProcessor (DelayEngineExt K) K) (L R : List K),
        st.analogDelay = e → L.length = R.length →
        getTotalNumOutputChannels st ≤ getTotalNumInputChannels st →
        (processBlock (DelayEngineExt.ops N) st ⟨L.length, [L, R]⟩).map Prod.snd
          = some ⟨L.length, [L, R]⟩ := by
  refine ⟨fun _ _ => rfl, rfl, ?_, ?_, ?_⟩
  · intro x
    simp [DelayEngineExt.processFrame, DelayEngineExt.processChannel, hwet, hdry]
  · intro frames
    exact DelayEngineExt.foldFrames_unity_gain N _ _ hwet hdry frames e rfl rfl
  · intro st L R hst hLR hch
    rw [processBlock_stereo (DelayEngineExt.ops N) st L R hLR hch, Option.map_some', hst,
      DelayEngineExt.foldFrames_unity_gain N _ _ hwet hdry _ e rfl rfl,
      List.map_fst_zip _ _ (by omega), List.map_snd_zip _ _ (by omega)]

/-- C7: impulse response of the delay engine.  On an engine whose buffer of a channel is
zero-filled with its cursor at 0 (as `configure` leaves it, `setParameters` not touching it),
with a delay of `d` whole samples, `1 ≤ d < C`, feedback fraction `φ = feedback_Pct / 100`,
wet gain `w` and dry gain `g`, a unit impulse on that channel followed by silence gives the
output `g` at sample 0, `w * φ ^ (k - 1)` at sample `k * d` for every `k ≥ 1` and 0 at every
other sample, for runs of any length.  In the concrete scenario (a new processor prepared at
48000 Hz, so 250 ms, 30 %, wet = dry = -3 dB, fed an impulse block of `n` samples through
`processBlock`) the delay is 12000 samples, the outputs at samples 0 and 12000 are both the
gain of -3 dB, and each later echo is 30/100 of the one before it. -/
theorem impulse_response (N : EngineNumerics K) :
    (∀ (e : DelayEngine K) (C d : Nat) (frames : List (K × K)),
        e.left = DelayBuffer.allocate C → 1 ≤ d → d < C →
        e.params.leftDelay_mSec * e.sampleRate / 1000 = (d : K) →
        frames.map Prod.fst = impulse K frames.length →
        IsImpulseResponse (N.dbToGain e.params.dryLevel_dB) (N.dbToGain e.params.wetLevel_dB)
          (e.params.feedback_Pct / 100) d
          ((foldFrames (DelayEngine.ops N) e frames).2.map Prod.fst))
    ∧ (∀ (e : DelayEngine K) (C d : Nat) (frames : List (K × K)),
        e.right = DelayBuffer.allocate C → 1 ≤ d → d < C →
        e.params.rightDelay_mSec * e.sampleRate / 1000 = (d : K) →
        frames.map Prod.snd = impulse K frames.length →
        IsImpulseResponse (N.dbToGain e.params.dryLevel_dB) (N.dbToGain e.params.wetLevel_dB)
          (e.params.feedback_Pct / 100) d
          ((foldFrames (DelayEngine.ops N) e frames).2.map Prod.snd))
    ∧ (∀ (e : DelayEngine K) (sampleRate maxDelayMs : K) (p : AudioDelayParameters K),
        ((e.configure sampleRate maxDelayMs).setParameters N p).left
            = DelayBuffer.allocate (bufferCapacity sampleRate maxDelayMs).toNat
        ∧ ((e.configure sampleRate maxDelayMs).setParameters N p).right
            = DelayBuffer.allocate (bufferCapacity sampleRate maxDelayMs).toNat
        ∧ ((e.configure sampleRate maxDelayMs).setParameters N p).sampleRate = sampleRate)
    ∧ ∀ (e0 : DelayEngine K) (p0 : AudioDelayParameters K) (samplesPerBlock : Int) (n : Nat),
        ∃ st1 st2 outL outR,
          prepareToPlay (DelayEngine.ops N) 48000 samplesPerBlock (construct e0 p0) = some st1
          ∧ st1.analogDelay.left.capacity = 96000
          ∧ st1.analogDelay.params.leftDelay_mSec * st1.analogDelay.sampleRate / 1000
              = ((12000 : Nat) : K)
          ∧ processBlock (DelayEngine.ops N) st1 ⟨n, [impulse K n, impulse K n]⟩
              = some (st2, ⟨n, [outL, outR]⟩)
          ∧ IsImpulseResponse (N.dbToGain (-3)) (N.dbToGain (-3)) (30 / 100) 12000 outL
          ∧ IsImpulseResponse (N.dbToGain (-3)) (N.dbToGain (-3)) (30 / 100) 12000 outR
          ∧ (0 < n → outL[0]? = some (N.dbToGain (-3)) ∧ outR[0]? = some (N.dbToGain (-3)))
          ∧ (12000 < n → outL[12000]? = some (N.dbToGain (-3))
              ∧ outR[12000]? = some (N.dbToGain (-3)))
          ∧ ∀ k, 1 ≤ k → (k + 1) * 12000 < n →
              (∃ a, outL[k * 12000]? = some a ∧ outL[(k + 1) * 12000]? = some (30 / 100 * a))
              ∧ ∃ a, outR[k * 12000]? = some a
                  ∧ outR[(k + 1) * 12000]? = some (30 / 100 * a) := by
  have hleft : ∀ (e : DelayEngine K) (C d : Nat) (frames : List (K × K)),
      e.left = DelayBuffer.allocate C → 1 ≤ d → d < C →
      e.params.leftDelay_mSec * e.sampleRate / 1000 = (d : K) →
      frames.map Prod.fst = impulse K frames.length →
      IsImpulseResponse (N.dbToGain e.params.dryLevel_dB) (N.dbToGain e.params.wetLevel_dB)
        (e.params.feedback_Pct / 100) d
        ((foldFrames (DelayEngine.ops N) e frames).2.map Prod.fst) := by
    intro e C d frames hbuf hd1 hdC hdelay hin
    refine isImpulseResponse_of_fold N e d hd1 _ frames.length ?_
    refine DelayEngine.foldFrames_left_impulse N e.sampleRate e.params C d hd1 hdC hdelay
      frames 0 e rfl rfl ?_ ?_
    · rw [hbuf]; exact DelayBuffer.holdsSignal_allocate _ C
    · rw [hin, impulse_eq_map_range]
  have hright : ∀ (e : DelayEngine K) (C d : Nat) (frames : List (K × K)),
      e.right = DelayBuffer.allocate C → 1 ≤ d → d < C →
      e.params.rightDelay_mSec * e.sampleRate / 1000 = (d : K) →
      frames.map Prod.snd = impulse K frames.length →
      IsImpulseResponse (N.dbToGain e.params.dryLevel_dB) (N.dbToGain e.params.wetLevel_dB)
        (e.params.feedback_Pct / 100) d
        ((foldFrames (DelayEngine.ops N) e frames).2.map Prod.snd) := by
    intro e C d frames hbuf hd1 hdC hdelay hin
    refine isImpulseResponse_of_fold N e d hd1 _ frames.length ?_
    refine DelayEngine.foldFrames_right_impulse N e.sampleRate e.params C d hd1 hdC hdelay
      frames 0 e rfl rfl ?_ ?_
    · rw [hbuf]; exact DelayBuffer.holdsSignal_allocate _ C
    · rw [hin, impulse_eq_map_range]
  refine ⟨hleft, hright, fun e sampleRate maxDelayMs p => ⟨rfl, rfl, rfl⟩, ?_⟩
  intro e0 p0 samplesPerBlock n
  obtain ⟨hdt, hfb, hwet, hdry⟩ := construct_lookups e0 p0
  have hprep := prepareToPlay_of_lookups (DelayEngine.ops N) 48000 samplesPerBlock
    (construct e0 p0) 250 30 (-3) (-3) hdt hfb hwet hdry
  have heng : (DelayEngine.ops N).setParameters
      ((DelayEngine.ops N).createDelayBuffers
        ((DelayEngine.ops N).reset (construct e0 p0).analogDelay 48000) 48000 2000)
      ⟨250, 250, 30, -3, -3⟩
      = ⟨48000, DelayBuffer.allocate 96000, DelayBuffer.allocate 96000,
          ⟨250, 250, 30, -3, -3⟩⟩ := DelayEngine.prepared_48k N e0
  rw [heng] at hprep
  have hlen : (impulse K n).length = n := by simp [impulse]
  have hzlen : ((impulse K n).zip (impulse K n)).length = n := by simp [hlen]
  have hblock := processBlock_stereo (DelayEngine.ops N) _ (impulse K n) (impulse K n) rfl
    (show getTotalNumOutputChannels
        ({ construct e0 p0 with
            params := ⟨250, 250, 30, -3, -3⟩
            analogDelay := ⟨48000, DelayBuffer.allocate 96000, DelayBuffer.allocate 96000,
              ⟨250, 250, 30, -3, -3⟩⟩ } : AnalogDelayAudioProcessor (DelayEngine K) K)
        ≤ getTotalNumInputChannels _ from le_refl _)
  rw [hlen] at hblock
  have hdelay : (250 : K) * 48000 / 1000 = ((12000 : Nat) : K) := by norm_num
  have hL := hleft ⟨48000, DelayBuffer.allocate 96000, DelayBuffer.allocate 96000,
      ⟨250, 250, 30, -3, -3⟩⟩ 96000 12000 ((impulse K n).zip (impulse K n)) rfl
      (by norm_num) (by norm_num) hdelay
      (by rw [hzlen]; exact List.map_fst_zip _ _ (le_refl _))
  have hR := hright ⟨48000, DelayBuffer.allocate 96000, DelayBuffer.allocate 96000,
      ⟨250, 250, 30, -3, -3⟩⟩ 96000 12000 ((impulse K n).zip (impulse K n)) rfl
      (by norm_num) (by norm_num) hdelay
      (by rw [hzlen]; exact List.map_snd_zip _ _ (le_refl _))
  have hoL : ((foldFrames (DelayEngine.ops N)
      (⟨48000, DelayBuffer.allocate 96000, DelayBuffer.allocate 96000,
        ⟨250, 250, 30, -3, -3⟩⟩ : DelayEngine K)
      ((impulse K n).zip (impulse K n))).2.map Prod.fst).length = n := by
    rw [isImpulseResponse_length_aux N _ _, hzlen]
  have hoR : ((foldFrames (DelayEngine.ops N)
      (⟨48000, DelayBuffer.allocate 96000, DelayBuffer.allocate 96000,
        ⟨250, 250, 30, -3, -3⟩⟩ : DelayEngine K)
      ((impulse K n).zip (impulse K n))).2.map Prod.snd).length = n := by
    rw [List.length_map, ← List.length_map _ Prod.fst, isImpulseResponse_length_aux N _ _, hzlen]
  refine ⟨_, _, _, _, hprep, List.length_replicate _ _, hdelay, hblock, hL, hR, ?_, ?_, ?_⟩
  · intro hn
    exact ⟨hL.1 (by rw [hoL]; exact hn), hR.1 (by rw [hoR]; exact hn)⟩
  · intro hn
    have h1 := hL.2.1 1 (le_refl _) (by rw [hoL]; omega)
    have h2 := hR.2.1 1 (le_refl _) (by rw [hoR]; omega)
    simp only [one_mul, Nat.sub_self, pow_zero, mul_one] at h1 h2
    exact ⟨h1, h2⟩
  · intro k hk hlen'
    exact ⟨hL.echo_ratio k hk (by rw [hoL]; exact hlen'),
      hR.echo_ratio k hk (by rw [hoR]; exact hlen')⟩

end EngineTheorems

/-- Witness for C8, on `ℝ` with the gain law `10 ^ (x / 20)`: wet level `-∞`, dry level 0 dB,
feedback 40 %, a delay of 2 samples on buffers of capacity 4 that hold earlier samples (the
delayed reads of the run are not zero), and a run of three frames. -/
theorem engine_pass_through_witness :
    (foldFrames (DelayEngineExt.ops ⟨fun x : ℝ => (10 : ℝ) ^ (x / 20), 99⟩)
        ⟨1000, ⟨[1 / 2, 1 / 4, 1 / 8, 1], 1⟩, ⟨[3, 5, 2, 1], 3⟩, 2, 2, 40,
          Level.negInfinity, Level.dB 0⟩
        [(5, 7), (-1, 2), (3, 4)]).2
      = [((5 : ℝ), (7 : ℝ)), (-1, 2), (3, 4)] :=
  (engine_pass_through (⟨fun x : ℝ => (10 : ℝ) ^ (x / 20), 99⟩ : EngineNumerics ℝ)
    ⟨1000, ⟨[1 / 2, 1 / 4, 1 / 8, 1], 1⟩, ⟨[3, 5, 2, 1], 3⟩, 2, 2, 40,
      Level.negInfinity, Level.dB 0⟩
    rfl (by simp [EngineNumerics.levelGain])).2.2.2.1 [(5, 7), (-1, 2), (3, 4)]

/-- Witness for C7.  On `ℚ`: sample rate 4 Hz, capacity 8, delay 750 ms (3 samples), feedback
50 %, a run of 20 frames (more than twice the capacity).  On `ℝ` with the gain law
`10 ^ (x / 20)`: the concrete scenario on a block of 24001 samples, where the outputs at
samples 0 and 12000 are both `10 ^ (-3 / 20)`. -/
theorem impulse_response_witness :
    IsImpulseResponse (linearGain.dbToGain (-3)) (linearGain.dbToGain (-3)) ((50 : ℚ) / 100) 3
        ((foldFrames (DelayEngine.ops linearGain)
          ⟨4, DelayBuffer.allocate 8, DelayBuffer.allocate 8, ⟨750, 750, 50, -3, -3⟩⟩
          ((impulse ℚ 20).zip (impulse ℚ 20))).2.map Prod.fst)
    ∧ ∃ outL outR : List ℝ,
        (∃ st1 st2,
          prepareToPlay (DelayEngine.ops ⟨fun x : ℝ => (10 : ℝ) ^ (x / 20), 99⟩) 48000 512
              (construct DelayEngine.unconfigured (defaultParams ℝ)) = some st1
          ∧ processBlock (DelayEngine.ops ⟨fun x : ℝ => (10 : ℝ) ^ (x / 20), 99⟩) st1
              ⟨24001, [impulse ℝ 24001, impulse ℝ 24001]⟩ = some (st2, ⟨24001, [outL, outR]⟩))
        ∧ outL[0]? = some ((10 : ℝ) ^ ((-3 : ℝ) / 20))
        ∧ outL[12000]? = some ((10 : ℝ) ^ ((-3 : ℝ) / 20))
        ∧ outR[0]? = some ((10 : ℝ) ^ ((-3 : ℝ) / 20))
        ∧ outR[12000]? = some ((10 : ℝ) ^ ((-3 : ℝ) / 20)) :=
  ⟨(impulse_response linearGain).1
      ⟨4, DelayBuffer.allocate 8, DelayBuffer.allocate 8, ⟨750, 750, 50, -3, -3⟩⟩ 8 3
      ((impulse ℚ 20).zip (impulse ℚ 20)) rfl (by decide) (by decide) (by norm_num)
      (List.map_fst_zip _ _ (le_refl _) |>.trans (by simp [impulse])),
    match (impulse_response (⟨fun x : ℝ => (10 : ℝ) ^ (x / 20), 99⟩ : EngineNumerics ℝ)).2.2.2
        DelayEngine.unconfigured (defaultParams ℝ) 512 24001 with
    | ⟨st1, st2, outL, outR, h1, _, _, h2, _, _, h0, h12, _⟩ =>
      ⟨outL, outR, ⟨st1, st2, h1, h2⟩, (h0 (by norm_num)).1, (h12 (by norm_num)).1,
        (h0 (by norm_num)).2, (h12 (by norm_num)).2⟩⟩

end AnalogDelay
